import Mathlib

/-!
Formal model of the stock-reservation ledger and the flash-sale (seckill)
admission pipeline of an e-commerce backend.

The definitions are shallow embeddings of the Python source:
 - `app/services/seckill_service.py` (the admission Lua script and preload),
 - `app/tasks/seckill_tasks.py` (the compensation Lua script, order materializer),
 - `app/services/inventory_service.py` (the durable stock ledger),
 - `app/services/order_service.py` (order cancellation, payment notification).

The fast store (Redis) is modelled with association lists; the relational
store is modelled as lists of rows.  Machine integers are `Int`; ISO-8601
timestamps, which the Lua scripts compare as strings, are `String` with the
lexicographic order.
-/

/-- Association-list lookup: the value bound to the first occurrence of a key. -/
def alookup {α β : Type} [DecidableEq α] (l : List (α × β)) (k : α) : Option β :=
  match l with
  | [] => none
  | (k', v) :: rest => if k' = k then some v else alookup rest k

/-- Redis HINCRBY / INCRBY semantics on an association list: increment the
value bound to the key, creating the binding (from 0) when absent. -/
def hincrby {α : Type} [DecidableEq α] (l : List (α × Int)) (k : α) (d : Int) :
    List (α × Int) :=
  match l with
  | [] => [(k, d)]
  | (k', v) :: rest => if k' = k then (k', v + d) :: rest else (k', v) :: hincrby rest k d

theorem alookup_hincrby_self {α : Type} [DecidableEq α]
    (l : List (α × Int)) (k : α) (d : Int) :
    alookup (hincrby l k d) k = some ((alookup l k).getD 0 + d) := by
  induction l with
  | nil => simp [alookup, hincrby]
  | cons hd tl ih =>
    obtain ⟨k', v⟩ := hd
    by_cases h : k' = k
    · subst h
      simp [alookup, hincrby]
    · simp [alookup, hincrby, h, ih]

theorem alookup_hincrby_ne {α : Type} [DecidableEq α]
    (l : List (α × Int)) (k k' : α) (d : Int) (h : k' ≠ k) :
    alookup (hincrby l k d) k' = alookup l k' := by
  have hkk : k ≠ k' := fun hk => h hk.symm
  induction l with
  | nil =>
    simp only [hincrby, alookup]
    rw [if_neg hkk]
  | cons hd tl ih =>
    obtain ⟨k₀, v⟩ := hd
    by_cases h₀ : k₀ = k
    · subst h₀
      simp only [hincrby, if_pos rfl, alookup]
      rw [if_neg hkk, if_neg hkk]
    · simp only [hincrby, if_neg h₀, alookup]
      by_cases h₁ : k₀ = k'
      · rw [if_pos h₁, if_pos h₁]
      · rw [if_neg h₁, if_neg h₁, ih]

/-! ## Fast store (Redis) state for one seckill activity

Mirror of the keys written by `SeckillService.load_activity_to_redis`:
per-offer stock counter, per-offer metadata hash, the SKU-to-offer map, and
the per-user purchase-count hash (field = offer id). -/

/-- The per-offer metadata hash `seckill:product:(id)` written at preload. -/
structure SeckillProductInfo where
  activity_id : Nat
  sku_id : Nat
  seckill_price : String
  purchase_limit : Int
  start_time : String
  end_time : String
deriving DecidableEq, Repr

/-- Fast-store state, scoped to one activity: the `sku_map` hash, the
`seckill:product:*` hashes, the `seckill:stock:*` counters and the
`seckill:purchase:user:*` hashes (keyed by user id, field = product id). -/
structure FastStore where
  skuMap : List (Nat × Nat)
  productInfo : List (Nat × SeckillProductInfo)
  stock : List (Nat × Int)
  purchased : List ((Nat × Nat) × Int)
deriving DecidableEq, Repr

/-- Discriminated result of the admission Lua script in
`SeckillService.create_seckill_order`.  `scriptError` models a Lua runtime
error (missing product hash or stock counter), which aborts the script. -/
inductive SeckillResult where
  | success (productId : Nat) (price : String)
  | notInActivity
  | notStarted
  | ended
  | insufficientStock
  | limitExceeded
  | scriptError
deriving DecidableEq, Repr

/-- The integer discriminant the script returns for each outcome. -/
def SeckillResult.code : SeckillResult → Int
  | .success _ _ => 1
  | .notInActivity => -1
  | .notStarted => -2
  | .ended => -3
  | .insufficientStock => -4
  | .limitExceeded => -5
  | .scriptError => 0

/-- Lexicographic (byte-wise) string comparison, the order Lua's `<` applies
to the ISO-8601 timestamp strings in the admission script. -/
def luaStrLt (a b : String) : Prop :=
  a.data < b.data

instance (a b : String) : Decidable (luaStrLt a b) :=
  inferInstanceAs (Decidable (a.data < b.data))

/-- The admission Lua script of `SeckillService.create_seckill_order`,
executed atomically: resolve SKU to offer, check the time window (ISO strings
compared lexicographically, as Lua compares them), check stock, check the
per-user limit, then decrement stock and increment the user's count. -/
def seckillAdmission (st : FastStore) (userId skuId : Nat) (qty : Int)
    (now : String) : SeckillResult × FastStore :=
  match alookup st.skuMap skuId with
  | none => (.notInActivity, st)
  | some pid =>
    match alookup st.productInfo pid with
    | none => (.scriptError, st)
    | some info =>
      if luaStrLt now info.start_time then (.notStarted, st)
      else if luaStrLt info.end_time now then (.ended, st)
      else
        match alookup st.stock pid with
        | none => (.scriptError, st)
        | some s =>
          if s < qty then (.insufficientStock, st)
          else
            let cnt := (alookup st.purchased (userId, pid)).getD 0
            if info.purchase_limit < cnt + qty then (.limitExceeded, st)
            else
              (.success pid info.seckill_price,
               { st with
                  stock := hincrby st.stock pid (-qty),
                  purchased := hincrby st.purchased (userId, pid) qty })

/-- The compensation Lua script `COMPENSATE_REDIS_LUA` in
`app/tasks/seckill_tasks.py`: restore the stock counter, and decrement the
user's purchase count only when the hash field exists. -/
def seckillCompensate (st : FastStore) (userId pid : Nat) (qty : Int) : FastStore :=
  { st with
      stock := hincrby st.stock pid qty,
      purchased :=
        match alookup st.purchased (userId, pid) with
        | some _ => hincrby st.purchased (userId, pid) (-qty)
        | none => st.purchased }

/-- The value of an offer's stock counter (0 when the key is absent). -/
def stockOf (st : FastStore) (pid : Nat) : Int :=
  (alookup st.stock pid).getD 0

/-- A user's purchase count for an offer, read the way both scripts read it:
an absent hash field counts as 0. -/
def countOf (st : FastStore) (userId pid : Nat) : Int :=
  (alookup st.purchased (userId, pid)).getD 0

/-- One purchase attempt: the arguments `create_seckill_order` passes to the
admission script (the user and activity fix the two Redis keys). -/
structure Attempt where
  userId : Nat
  skuId : Nat
  qty : Int
  now : String
deriving DecidableEq, Repr

/-- Run a finite sequence of admission-script executions; the fast store's
single-threaded script engine totally orders them. -/
def runAdmissions (st : FastStore) : List Attempt → List SeckillResult × FastStore
  | [] => ([], st)
  | a :: rest =>
    let step := seckillAdmission st a.userId a.skuId a.qty a.now
    let tail := runAdmissions step.2 rest
    (step.1 :: tail.1, tail.2)

theorem admission_eval (st : FastStore) (u sku : Nat) (qty : Int) (now : String)
    (pid : Nat) (info : SeckillProductInfo) (s : Int)
    (hmap : alookup st.skuMap sku = some pid)
    (hinfo : alookup st.productInfo pid = some info)
    (hstock : alookup st.stock pid = some s) :
    seckillAdmission st u sku qty now =
      if luaStrLt now info.start_time then (.notStarted, st)
      else if luaStrLt info.end_time now then (.ended, st)
      else if s < qty then (.insufficientStock, st)
      else if info.purchase_limit < countOf st u pid + qty then (.limitExceeded, st)
      else (.success pid info.seckill_price,
            { st with
                stock := hincrby st.stock pid (-qty),
                purchased := hincrby st.purchased (u, pid) qty }) := by
  simp only [seckillAdmission, hmap, hinfo, hstock, countOf]

/-- Every admission-script execution either fails and leaves the fast store
untouched, or passes all four checks and performs exactly the two writes. -/
theorem admission_state_cases (st : FastStore) (u sku : Nat) (qty : Int) (now : String) :
    (seckillAdmission st u sku qty now).2 = st ∨
    ∃ pid info s, alookup st.skuMap sku = some pid ∧
      alookup st.productInfo pid = some info ∧ alookup st.stock pid = some s ∧
      ¬ luaStrLt now info.start_time ∧ ¬ luaStrLt info.end_time now ∧
      qty ≤ s ∧ countOf st u pid + qty ≤ info.purchase_limit ∧
      (seckillAdmission st u sku qty now).1 = .success pid info.seckill_price ∧
      (seckillAdmission st u sku qty now).2 =
        { st with
            stock := hincrby st.stock pid (-qty),
            purchased := hincrby st.purchased (u, pid) qty } := by
  rcases hmap : alookup st.skuMap sku with _ | pid
  · left
    simp [seckillAdmission, hmap]
  · rcases hinfo : alookup st.productInfo pid with _ | info
    · left
      simp [seckillAdmission, hmap, hinfo]
    · rcases hstock : alookup st.stock pid with _ | s
      · left
        by_cases h1 : luaStrLt now info.start_time
        · simp [seckillAdmission, hmap, hinfo, hstock, h1]
        · by_cases h2 : luaStrLt info.end_time now <;>
            simp [seckillAdmission, hmap, hinfo, hstock, h1, h2]
      · rw [admission_eval st u sku qty now pid info s hmap hinfo hstock]
        by_cases h1 : luaStrLt now info.start_time
        · left; simp [h1]
        · by_cases h2 : luaStrLt info.end_time now
          · left; simp [h1, h2]
          · by_cases h3 : s < qty
            · left; simp [h1, h2, h3]
            · by_cases h4 : info.purchase_limit < countOf st u pid + qty
              · left; simp [h1, h2, h3, h4]
              · right
                refine ⟨pid, info, s, rfl, hinfo, hstock, h1, h2, by omega, by omega, ?_, ?_⟩
                · simp [h1, h2, h3, h4]
                · simp [h1, h2, h3, h4]

/-- C6: compensation is the exact inverse of a successful admission.  If the
admission script admitted quantity `qty` of offer `pid` to user `u`, then
running `COMPENSATE_REDIS_LUA` with that product id and quantity restores the
offer's stock counter and the user's purchase count to their pre-admission
values. -/
theorem compensation_inverse (st : FastStore) (u sku : Nat) (qty : Int)
    (now : String) (pid : Nat) (price : String) (st' : FastStore)
    (h : seckillAdmission st u sku qty now = (.success pid price, st')) :
    stockOf (seckillCompensate st' u pid qty) pid = stockOf st pid ∧
    countOf (seckillCompensate st' u pid qty) u pid = countOf st u pid := by
  rcases hmap : alookup st.skuMap sku with _ | pid0
  · simp [seckillAdmission, hmap] at h
  rcases hinfo : alookup st.productInfo pid0 with _ | info
  · simp [seckillAdmission, hmap, hinfo] at h
  rcases hstock : alookup st.stock pid0 with _ | s
  · by_cases h1 : luaStrLt now info.start_time
    · simp [seckillAdmission, hmap, hinfo, hstock, h1] at h
    · by_cases h2 : luaStrLt info.end_time now <;>
        simp [seckillAdmission, hmap, hinfo, hstock, h1, h2] at h
  rw [admission_eval st u sku qty now pid0 info s hmap hinfo hstock] at h
  by_cases h1 : luaStrLt now info.start_time
  · simp [h1] at h
  by_cases h2 : luaStrLt info.end_time now
  · simp [h1, h2] at h
  by_cases h3 : s < qty
  · simp [h1, h2, h3] at h
  by_cases h4 : info.purchase_limit < countOf st u pid0 + qty
  · simp [h1, h2, h3, h4] at h
  rw [if_neg h1, if_neg h2, if_neg h3, if_neg h4] at h
  simp only [Prod.mk.injEq, SeckillResult.success.injEq] at h
  obtain ⟨⟨hpid, hprice⟩, hst⟩ := h
  subst hpid
  subst hst
  constructor
  · simp only [seckillCompensate, stockOf]
    rw [alookup_hincrby_self, alookup_hincrby_self, hstock]
    simp only [Option.getD_some]
    omega
  · simp only [seckillCompensate, countOf]
    rw [alookup_hincrby_self]
    simp only [Option.getD_some]
    rw [alookup_hincrby_self, alookup_hincrby_self]
    simp only [Option.getD_some]
    omega

/-- C8: the admission-script result contract.  An unmapped SKU yields the
NotInActivity result; for a preloaded offer the script returns success
exactly when the window, stock and per-user-limit checks all pass, the
failure discriminants correspond to the checks in their evaluation order,
every failing execution leaves the fast store unchanged, and a success
performs exactly the stock decrement and purchase-count increment. -/
theorem admission_contract :
    (∀ (st : FastStore) (u sku : Nat) (qty : Int) (now : String),
        alookup st.skuMap sku = none →
        seckillAdmission st u sku qty now = (.notInActivity, st)) ∧
    (∀ (st : FastStore) (u sku : Nat) (qty : Int) (now : String)
        (pid : Nat) (info : SeckillProductInfo) (s : Int),
        alookup st.skuMap sku = some pid →
        alookup st.productInfo pid = some info →
        alookup st.stock pid = some s →
        (((seckillAdmission st u sku qty now).1 = .success pid info.seckill_price) ↔
          (¬ luaStrLt now info.start_time ∧ ¬ luaStrLt info.end_time now ∧
           qty ≤ s ∧ countOf st u pid + qty ≤ info.purchase_limit)) ∧
        (((seckillAdmission st u sku qty now).1 = .notStarted) ↔
          luaStrLt now info.start_time) ∧
        (((seckillAdmission st u sku qty now).1 = .ended) ↔
          (¬ luaStrLt now info.start_time ∧ luaStrLt info.end_time now)) ∧
        (((seckillAdmission st u sku qty now).1 = .insufficientStock) ↔
          (¬ luaStrLt now info.start_time ∧ ¬ luaStrLt info.end_time now ∧ s < qty)) ∧
        (((seckillAdmission st u sku qty now).1 = .limitExceeded) ↔
          (¬ luaStrLt now info.start_time ∧ ¬ luaStrLt info.end_time now ∧
           qty ≤ s ∧ info.purchase_limit < countOf st u pid + qty)) ∧
        ((seckillAdmission st u sku qty now).1 ≠ .success pid info.seckill_price →
          (seckillAdmission st u sku qty now).2 = st) ∧
        ((seckillAdmission st u sku qty now).1 = .success pid info.seckill_price →
          stockOf (seckillAdmission st u sku qty now).2 pid = s - qty ∧
          countOf (seckillAdmission st u sku qty now).2 u pid =
            countOf st u pid + qty)) := by
  constructor
  · intro st u sku qty now hmap
    simp [seckillAdmission, hmap]
  · intro st u sku qty now pid info s hmap hinfo hstock
    rw [admission_eval st u sku qty now pid info s hmap hinfo hstock]
    by_cases h1 : luaStrLt now info.start_time
    · simp only [if_pos h1]
      refine ⟨?_, ?_, ?_, ?_, ?_, ?_, ?_⟩
      · simp [h1]
      · simp [h1]
      · simp [h1]
      · simp [h1]
      · simp [h1]
      · intro _; trivial
      · intro hc; simp at hc
    · by_cases h2 : luaStrLt info.end_time now
      · simp only [if_neg h1, if_pos h2]
        refine ⟨?_, ?_, ?_, ?_, ?_, ?_, ?_⟩
        · simp [h1]
          intro hn
          exact absurd h2 hn
        · simp [h1]
        · simp [h1, h2]
        · simp [h2]
        · simp [h2]
        · intro _; trivial
        · intro hc; simp at hc
      · by_cases h3 : s < qty
        · simp only [if_neg h1, if_neg h2, if_pos h3]
          refine ⟨?_, ?_, ?_, ?_, ?_, ?_, ?_⟩
          · simp [h3]
          · simp [h1]
          · simp [h2]
          · simp [h1, h2, h3]
          · simp
            intro _ _ hle
            omega
          · intro _; trivial
          · intro hc; simp at hc
        · by_cases h4 : info.purchase_limit < countOf st u pid + qty
          · simp only [if_neg h1, if_neg h2, if_neg h3, if_pos h4]
            refine ⟨?_, ?_, ?_, ?_, ?_, ?_, ?_⟩
            · simp
              intro _ _ _
              omega
            · simp [h1]
            · simp [h2]
            · simp
              intro _ _
              omega
            · simp [h1, h2, h4]
              omega
            · intro _; trivial
            · intro hc; simp at hc
          · simp only [if_neg h1, if_neg h2, if_neg h3, if_neg h4]
            refine ⟨?_, ?_, ?_, ?_, ?_, ?_, ?_⟩
            · simp [h1, h2]
              omega
            · simp [h1]
            · simp [h2]
            · simp
              omega
            · simp
              omega
            · intro hc; exact absurd rfl hc
            · intro _
              constructor
              · simp only [stockOf]
                rw [alookup_hincrby_self, hstock]
                simp only [Option.getD_some]
                omega
              · simp only [countOf]
                rw [alookup_hincrby_self]
                simp only [Option.getD_some]

/-- The admission script never writes the SKU map or the product hashes. -/
theorem admission_preserves_meta (st : FastStore) (u sku : Nat) (qty : Int)
    (now : String) :
    (seckillAdmission st u sku qty now).2.skuMap = st.skuMap ∧
    (seckillAdmission st u sku qty now).2.productInfo = st.productInfo := by
  rcases admission_state_cases st u sku qty now with h |
    ⟨pid, info, s, _, _, _, _, _, _, _, _, hstate⟩
  · rw [h]
    exact ⟨rfl, rfl⟩
  · rw [hstate]
    exact ⟨rfl, rfl⟩

/-- One admission-script execution keeps every user's purchase count for every
offer at or below that offer's limit. -/
theorem countOf_step_le (st : FastStore) (a : Attempt) (u pid : Nat)
    (info : SeckillProductInfo)
    (hinfo : alookup st.productInfo pid = some info)
    (hle : countOf st u pid ≤ info.purchase_limit) :
    countOf (seckillAdmission st a.userId a.skuId a.qty a.now).2 u pid ≤
      info.purchase_limit := by
  rcases admission_state_cases st a.userId a.skuId a.qty a.now with h |
    ⟨pid', info', s, hmap', hinfo', hstock', _, _, _, hc, _, hstate⟩
  · rw [h]
    exact hle
  · rw [hstate]
    by_cases hk : (u, pid) = (a.userId, pid')
    · have hp : pid = pid' := congrArg Prod.snd hk
      have hinfoeq : info' = info := by
        rw [← hp] at hinfo'
        rw [hinfo'] at hinfo
        exact (Option.some.injEq _ _ ▸ hinfo :)
      simp only [countOf]
      rw [hk, alookup_hincrby_self]
      simp only [Option.getD_some]
      rw [hinfoeq] at hc
      calc (alookup st.purchased (a.userId, pid')).getD 0 + a.qty
      _ = countOf st a.userId pid' + a.qty := rfl
      _ ≤ info.purchase_limit := hc
    · simp only [countOf]
      rw [alookup_hincrby_ne _ _ _ _ hk]
      exact hle

/-- C7: per-user limit.  Over any finite sequence of admission-script
executions a user's purchase count for an offer never exceeds the offer's
purchase limit (so, starting from a fresh count of 0, the cumulative quantity
admitted to that user never exceeds it); and an attempt that would push the
count past the limit returns the LimitExceeded result and changes neither the
stock counter nor the purchase count. -/
theorem per_user_limit :
    (∀ (st : FastStore) (l : List Attempt) (u pid : Nat) (info : SeckillProductInfo),
        alookup st.productInfo pid = some info →
        countOf st u pid ≤ info.purchase_limit →
        countOf (runAdmissions st l).2 u pid ≤ info.purchase_limit) ∧
    (∀ (st : FastStore) (u sku : Nat) (qty : Int) (now : String)
        (pid : Nat) (info : SeckillProductInfo) (s : Int),
        alookup st.skuMap sku = some pid →
        alookup st.productInfo pid = some info →
        alookup st.stock pid = some s →
        ¬ luaStrLt now info.start_time →
        ¬ luaStrLt info.end_time now →
        qty ≤ s →
        info.purchase_limit < countOf st u pid + qty →
        seckillAdmission st u sku qty now = (.limitExceeded, st)) := by
  constructor
  · intro st l
    induction l generalizing st with
    | nil =>
      intro u pid info hinfo hle
      simpa [runAdmissions] using hle
    | cons a rest ih =>
      intro u pid info hinfo hle
      simp only [runAdmissions]
      refine ih _ u pid info ?_ ?_
      · rw [(admission_preserves_meta st a.userId a.skuId a.qty a.now).2]
        exact hinfo
      · exact countOf_step_le st a u pid info hinfo hle
  · intro st u sku qty now pid info s hmap hinfo hstock h1 h2 hq h4
    rw [admission_eval st u sku qty now pid info s hmap hinfo hstock]
    rw [if_neg h1, if_neg h2, if_neg (show ¬ s < qty by omega), if_pos h4]

/-- Whether a script result is the success discriminant. -/
def SeckillResult.isSuccess : SeckillResult → Bool
  | .success _ _ => true
  | _ => false

/-- A run of attempts against offer `pid` in which every execution comes from
a user inside the activity window whose remaining purchase limit covers the
requested (positive) quantity: the hypotheses of the no-oversell claim,
checked at each attempt's turn. -/
def admissibleRunB (pid : Nat) (st : FastStore) : List Attempt → Bool
  | [] => true
  | a :: rest =>
    (match alookup st.skuMap a.skuId, alookup st.productInfo pid,
        alookup st.stock pid with
     | some pid', some info, some _ =>
         decide (pid' = pid) && decide (¬ luaStrLt a.now info.start_time) &&
         decide (¬ luaStrLt info.end_time a.now) && decide (1 ≤ a.qty) &&
         decide (countOf st a.userId pid + a.qty ≤ info.purchase_limit)
     | _, _, _ => false) &&
    admissibleRunB pid (seckillAdmission st a.userId a.skuId a.qty a.now).2 rest

theorem admissibleRunB_cons (pid : Nat) (st : FastStore) (a : Attempt)
    (rest : List Attempt) (h : admissibleRunB pid st (a :: rest) = true) :
    (∃ info s, alookup st.skuMap a.skuId = some pid ∧
      alookup st.productInfo pid = some info ∧ alookup st.stock pid = some s ∧
      ¬ luaStrLt a.now info.start_time ∧ ¬ luaStrLt info.end_time a.now ∧
      1 ≤ a.qty ∧ countOf st a.userId pid + a.qty ≤ info.purchase_limit) ∧
    admissibleRunB pid (seckillAdmission st a.userId a.skuId a.qty a.now).2
      rest = true := by
  simp only [admissibleRunB, Bool.and_eq_true] at h
  obtain ⟨h1, h2⟩ := h
  refine ⟨?_, h2⟩
  rcases hmap : alookup st.skuMap a.skuId with _ | pid' <;> rw [hmap] at h1
  · simp at h1
  rcases hinfo : alookup st.productInfo pid with _ | info <;> rw [hinfo] at h1
  · simp at h1
  rcases hstock : alookup st.stock pid with _ | s <;> rw [hstock] at h1
  · simp at h1
  simp only [Bool.and_eq_true, decide_eq_true_eq] at h1
  obtain ⟨⟨⟨⟨hpid, hw1⟩, hw2⟩, hqty⟩, hcnt⟩ := h1
  subst hpid
  exact ⟨info, s, rfl, rfl, rfl, hw1, hw2, hqty, hcnt⟩

theorem admissible_step (pid : Nat) (st : FastStore) (a : Attempt)
    (rest : List Attempt) (h : admissibleRunB pid st (a :: rest) = true) :
    (((seckillAdmission st a.userId a.skuId a.qty a.now).1.isSuccess = true) ↔
       a.qty ≤ stockOf st pid) ∧
    ((seckillAdmission st a.userId a.skuId a.qty a.now).1.isSuccess = true →
       stockOf (seckillAdmission st a.userId a.skuId a.qty a.now).2 pid =
         stockOf st pid - a.qty) ∧
    ((seckillAdmission st a.userId a.skuId a.qty a.now).1.isSuccess = false →
       seckillAdmission st a.userId a.skuId a.qty a.now =
         (.insufficientStock, st)) := by
  obtain ⟨⟨info, s, hmap, hinfo, hstock, hw1, hw2, hqty, hcnt⟩, _⟩ :=
    admissibleRunB_cons _ _ _ _ h
  have hs : stockOf st pid = s := by simp [stockOf, hstock]
  rw [admission_eval st a.userId a.skuId a.qty a.now pid info s hmap hinfo hstock]
  rw [if_neg hw1, if_neg hw2]
  by_cases h3 : s < a.qty
  · rw [if_pos h3]
    refine ⟨?_, ?_, ?_⟩
    · simp [SeckillResult.isSuccess, hs]
      omega
    · intro hc
      simp [SeckillResult.isSuccess] at hc
    · intro _
      rfl
  · rw [if_neg h3,
      if_neg (show ¬ info.purchase_limit < countOf st a.userId pid + a.qty by omega)]
    refine ⟨?_, ?_, ?_⟩
    · simp [SeckillResult.isSuccess, hs]
      omega
    · intro _
      simp only [stockOf]
      rw [alookup_hincrby_self, hstock]
      simp only [Option.getD_some]
      omega
    · intro hc
      simp [SeckillResult.isSuccess] at hc

theorem admissibleRunB_append (pid : Nat) (st : FastStore) (l₁ l₂ : List Attempt)
    (h : admissibleRunB pid st (l₁ ++ l₂) = true) :
    admissibleRunB pid (runAdmissions st l₁).2 l₂ = true := by
  induction l₁ generalizing st with
  | nil => simpa [runAdmissions] using h
  | cons a rest ih =>
    simp only [List.cons_append] at h
    obtain ⟨_, htail⟩ := admissibleRunB_cons _ _ _ _ h
    simp only [runAdmissions]
    exact ih _ htail

theorem run_stock_nonneg (pid : Nat) (st : FastStore) (l : List Attempt)
    (h : admissibleRunB pid st l = true) (h0 : 0 ≤ stockOf st pid) :
    0 ≤ stockOf (runAdmissions st l).2 pid := by
  induction l generalizing st with
  | nil => simpa [runAdmissions] using h0
  | cons a rest ih =>
    obtain ⟨hconds, htail⟩ := admissibleRunB_cons _ _ _ _ h
    obtain ⟨hiff, hsucc, hfail⟩ := admissible_step _ _ _ _ h
    simp only [runAdmissions]
    apply ih _ htail
    by_cases hS : (seckillAdmission st a.userId a.skuId a.qty a.now).1.isSuccess = true
    · rw [hsucc hS]
      have hq : a.qty ≤ stockOf st pid := hiff.mp hS
      omega
    · rw [Bool.not_eq_true] at hS
      rw [hfail hS]
      exact h0


theorem scenario_aux (pid : Nat) (info : SeckillProductInfo)
    (hlimit : 1 ≤ info.purchase_limit) :
    ∀ (l : List Attempt) (st : FastStore) (S : Nat),
      alookup st.productInfo pid = some info →
      alookup st.stock pid = some (S : Int) →
      (∀ a ∈ l, alookup st.skuMap a.skuId = some pid) →
      (∀ a ∈ l, a.qty = 1) →
      (∀ a ∈ l, ¬ luaStrLt a.now info.start_time ∧ ¬ luaStrLt info.end_time a.now) →
      (∀ a ∈ l, countOf st a.userId pid = 0) →
      (l.map (fun a => a.userId)).Nodup →
      (runAdmissions st l).1 =
        List.replicate (min S l.length) (.success pid info.seckill_price) ++
        List.replicate (l.length - S) .insufficientStock ∧
      alookup (runAdmissions st l).2.stock pid =
        some ((S : Int) - (min S l.length : Nat)) := by
  intro l
  induction l with
  | nil =>
    intro st S hinfo hstock _ _ _ _ _
    refine ⟨by simp [runAdmissions], ?_⟩
    simp only [runAdmissions, List.length_nil]
    rw [hstock]
    congr 1
    omega
  | cons a rest ih =>
    intro st S hinfo hstock hmap hqty hwin hcnt hnodup
    have hq1 : a.qty = 1 := hqty a (List.mem_cons_self a rest)
    have hw := hwin a (List.mem_cons_self a rest)
    have hc0 : countOf st a.userId pid = 0 := hcnt a (List.mem_cons_self a rest)
    have hmapa : alookup st.skuMap a.skuId = some pid :=
      hmap a (List.mem_cons_self a rest)
    simp only [List.map_cons, List.nodup_cons] at hnodup
    obtain ⟨hnotmem, hnodup'⟩ := hnodup
    have heval := admission_eval st a.userId a.skuId a.qty a.now pid info
      ((S : Int)) hmapa hinfo hstock
    rcases S with _ | n
    · have hfail : seckillAdmission st a.userId a.skuId a.qty a.now =
          (.insufficientStock, st) := by
        rw [heval, if_neg hw.1, if_neg hw.2,
          if_pos (show (((0 : Nat) : Int)) < a.qty by rw [hq1]; omega)]
      have hfail1 : (seckillAdmission st a.userId a.skuId a.qty a.now).1 =
          .insufficientStock := by rw [hfail]
      have hfail2 : (seckillAdmission st a.userId a.skuId a.qty a.now).2 = st := by
        rw [hfail]
      have hrec := ih st 0 hinfo hstock
        (fun a' ha' => hmap a' (List.mem_cons_of_mem _ ha'))
        (fun a' ha' => hqty a' (List.mem_cons_of_mem _ ha'))
        (fun a' ha' => hwin a' (List.mem_cons_of_mem _ ha'))
        (fun a' ha' => hcnt a' (List.mem_cons_of_mem _ ha'))
        hnodup'
      have hmin : min 0 (rest.length + 1) = 0 := by omega
      have hsub : rest.length + 1 - 0 = rest.length + 1 := by omega
      constructor
      · simp only [runAdmissions, hfail1, hfail2, List.length_cons, hmin, hsub]
        rw [hrec.1]
        have hmin' : min 0 rest.length = 0 := by omega
        have hsub' : rest.length - 0 = rest.length := by omega
        rw [hmin', hsub']
        simp [List.replicate_succ]
      · simp only [runAdmissions, hfail2, List.length_cons, hmin]
        rw [hrec.2]
        congr 1
        omega
    · have hsucc : seckillAdmission st a.userId a.skuId a.qty a.now =
          (.success pid info.seckill_price,
           { st with
              stock := hincrby st.stock pid (-a.qty),
              purchased := hincrby st.purchased (a.userId, pid) a.qty }) := by
        rw [heval, if_neg hw.1, if_neg hw.2,
          if_neg (show ¬ (((n + 1 : Nat) : Int)) < a.qty by rw [hq1]; omega),
          if_neg (show ¬ info.purchase_limit < countOf st a.userId pid + a.qty by
            rw [hc0, hq1]; omega)]
      have hs1 : (seckillAdmission st a.userId a.skuId a.qty a.now).1 =
          .success pid info.seckill_price := by rw [hsucc]
      have hs2 : (seckillAdmission st a.userId a.skuId a.qty a.now).2 =
          { st with
              stock := hincrby st.stock pid (-a.qty),
              purchased := hincrby st.purchased (a.userId, pid) a.qty } := by
        rw [hsucc]
      have hstock' : alookup (hincrby st.stock pid (-a.qty)) pid =
          some ((n : Int)) := by
        rw [alookup_hincrby_self, hstock]
        simp only [Option.getD_some]
        congr 1
        rw [hq1]
        push_cast
        ring
      have hcnt' : ∀ a' ∈ rest,
          (alookup (hincrby st.purchased (a.userId, pid) a.qty)
            (a'.userId, pid)).getD 0 = 0 := by
        intro a' ha'
        have hne : a'.userId ≠ a.userId := by
          intro hEq
          exact hnotmem (hEq ▸ List.mem_map_of_mem (fun x => x.userId) ha')
        rw [alookup_hincrby_ne _ _ _ _ (fun hk => hne (congrArg Prod.fst hk))]
        exact hcnt a' (List.mem_cons_of_mem _ ha')
      have hrec := ih
        { st with
            stock := hincrby st.stock pid (-a.qty),
            purchased := hincrby st.purchased (a.userId, pid) a.qty }
        n hinfo hstock'
        (fun a' ha' => hmap a' (List.mem_cons_of_mem _ ha'))
        (fun a' ha' => hqty a' (List.mem_cons_of_mem _ ha'))
        (fun a' ha' => hwin a' (List.mem_cons_of_mem _ ha'))
        hcnt' hnodup'
      have hmin : min (n + 1) (rest.length + 1) = min n rest.length + 1 := by omega
      have hsub : rest.length + 1 - (n + 1) = rest.length - n := by omega
      constructor
      · simp only [runAdmissions, hs1, hs2, List.length_cons, hmin, hsub]
        rw [hrec.1, List.replicate_succ, List.cons_append]
      · simp only [runAdmissions, hs2, List.length_cons, hmin]
        rw [hrec.2]
        congr 1
        omega

/-- C1: no oversell.  Over any admissible run against one offer (every
attempt in-window, positive quantity, remaining user limit covering it), an
execution succeeds exactly when the stock counter at its turn is at least its
requested quantity, a success decrements the counter by exactly that
quantity, a failure is the InsufficientStock result and leaves the store
unchanged, and the counter never becomes negative; and for `N > S` single-unit
attempts from `N` distinct fresh users against an offer preloaded with stock
`S`, exactly the first `S` succeed, the other `N - S` receive
InsufficientStock, and the counter ends at exactly 0. -/
theorem seckill_no_oversell :
    (∀ (pid : Nat) (st : FastStore) (l : List Attempt),
        admissibleRunB pid st l = true →
        (∀ (l₁ : List Attempt) (a : Attempt) (l₂ : List Attempt),
          l = l₁ ++ a :: l₂ →
          (((seckillAdmission (runAdmissions st l₁).2 a.userId a.skuId a.qty
              a.now).1.isSuccess = true) ↔
            a.qty ≤ stockOf (runAdmissions st l₁).2 pid) ∧
          ((seckillAdmission (runAdmissions st l₁).2 a.userId a.skuId a.qty
              a.now).1.isSuccess = true →
            stockOf (seckillAdmission (runAdmissions st l₁).2 a.userId a.skuId
              a.qty a.now).2 pid =
              stockOf (runAdmissions st l₁).2 pid - a.qty) ∧
          ((seckillAdmission (runAdmissions st l₁).2 a.userId a.skuId a.qty
              a.now).1.isSuccess = false →
            seckillAdmission (runAdmissions st l₁).2 a.userId a.skuId a.qty
              a.now = (.insufficientStock, (runAdmissions st l₁).2))) ∧
        (0 ≤ stockOf st pid → 0 ≤ stockOf (runAdmissions st l).2 pid)) ∧
    (∀ (pid : Nat) (st : FastStore) (l : List Attempt) (S : Nat)
        (info : SeckillProductInfo),
        alookup st.productInfo pid = some info →
        alookup st.stock pid = some (S : Int) →
        1 ≤ info.purchase_limit →
        (∀ a ∈ l, alookup st.skuMap a.skuId = some pid) →
        (∀ a ∈ l, a.qty = 1) →
        (∀ a ∈ l, ¬ luaStrLt a.now info.start_time ∧
          ¬ luaStrLt info.end_time a.now) →
        (∀ a ∈ l, countOf st a.userId pid = 0) →
        (l.map (fun a => a.userId)).Nodup →
        S < l.length →
        (runAdmissions st l).1 =
          List.replicate S (.success pid info.seckill_price) ++
          List.replicate (l.length - S) .insufficientStock ∧
        stockOf (runAdmissions st l).2 pid = 0) := by
  constructor
  · intro pid st l h
    constructor
    · intro l₁ a l₂ hdec
      subst hdec
      exact admissible_step pid (runAdmissions st l₁).2 a l₂
        (admissibleRunB_append pid st l₁ (a :: l₂) h)
    · intro h0
      exact run_stock_nonneg pid st l h h0
  · intro pid st l S info hinfo hstock hlimit hmap hqty hwin hcnt hnodup hS
    have hmin : min S l.length = S := by omega
    have hrec := scenario_aux pid info hlimit l st S hinfo hstock hmap hqty
      hwin hcnt hnodup
    refine ⟨?_, ?_⟩
    · rw [hrec.1, hmin]
    · simp only [stockOf]
      rw [hrec.2, hmin]
      simp only [Option.getD_some]
      omega

/-- Concrete offer metadata for the no-oversell witness. -/
def c1Info : SeckillProductInfo :=
  ⟨1, 7, "9.99", 1, "2026-01-01T00:00:00+00:00", "2026-12-31T00:00:00+00:00"⟩

/-- A preloaded fast store: SKU 7 maps to offer 10, stock counter 2. -/
def c1Store : FastStore :=
  ⟨[(7, 10)], [(10, c1Info)], [(10, 2)], []⟩

/-- Three single-unit in-window attempts from three distinct users. -/
def c1Attempts : List Attempt :=
  [⟨1, 7, 1, "2026-06-01T00:00:00+00:00"⟩,
   ⟨2, 7, 1, "2026-06-01T00:00:01+00:00"⟩,
   ⟨3, 7, 1, "2026-06-01T00:00:02+00:00"⟩]

theorem seckill_no_oversell_witness :
    (alookup c1Store.productInfo 10 = some c1Info ∧
     alookup c1Store.stock 10 = some ((2 : Nat) : Int) ∧
     1 ≤ c1Info.purchase_limit ∧
     (∀ a ∈ c1Attempts, alookup c1Store.skuMap a.skuId = some 10) ∧
     (∀ a ∈ c1Attempts, a.qty = 1) ∧
     (∀ a ∈ c1Attempts, ¬ luaStrLt a.now c1Info.start_time ∧
        ¬ luaStrLt c1Info.end_time a.now) ∧
     (∀ a ∈ c1Attempts, countOf c1Store a.userId 10 = 0) ∧
     (c1Attempts.map (fun a => a.userId)).Nodup ∧
     2 < c1Attempts.length) ∧
    ((runAdmissions c1Store c1Attempts).1 =
      List.replicate 2 (.success 10 c1Info.seckill_price) ++
      List.replicate (c1Attempts.length - 2) .insufficientStock ∧
     stockOf (runAdmissions c1Store c1Attempts).2 10 = 0) :=
  ⟨⟨by decide, by decide, by decide, by decide, by decide, by decide, by decide,
    by decide, by decide⟩,
   seckill_no_oversell.2 10 c1Store c1Attempts 2 c1Info (by decide) (by decide)
     (by decide) (by decide) (by decide) (by decide) (by decide) (by decide)
     (by decide)⟩

/-- Offer metadata for the compensation witness (limit 3). -/
def c6Info : SeckillProductInfo :=
  ⟨1, 7, "19.90", 3, "2026-01-01T00:00:00+00:00", "2026-12-31T00:00:00+00:00"⟩

/-- Fast store before the admission in the compensation witness. -/
def c6Store : FastStore :=
  ⟨[(7, 10)], [(10, c6Info)], [(10, 5)], []⟩

/-- Fast store after user 1 is admitted for 2 units of offer 10. -/
def c6After : FastStore :=
  ⟨[(7, 10)], [(10, c6Info)], [(10, 3)], [((1, 10), 2)]⟩

theorem compensation_inverse_witness :
    (seckillAdmission c6Store 1 7 2 "2026-06-01T00:00:00+00:00" =
      (.success 10 c6Info.seckill_price, c6After)) ∧
    (stockOf (seckillCompensate c6After 1 10 2) 10 = stockOf c6Store 10 ∧
     countOf (seckillCompensate c6After 1 10 2) 1 10 = countOf c6Store 1 10) :=
  ⟨by decide,
   compensation_inverse c6Store 1 7 2 "2026-06-01T00:00:00+00:00" 10
     c6Info.seckill_price c6After (by decide)⟩

/-- Offer metadata for the per-user-limit witness (limit 2). -/
def c7Info : SeckillProductInfo :=
  ⟨1, 7, "5.00", 2, "2026-01-01T00:00:00+00:00", "2026-12-31T00:00:00+00:00"⟩

/-- Fast store with ample stock (50) for the per-user-limit witness. -/
def c7Store : FastStore :=
  ⟨[(7, 10)], [(10, c7Info)], [(10, 50)], []⟩

/-- User 1 repeatedly attempts to buy 5 units in total against limit 2. -/
def c7Attempts : List Attempt :=
  [⟨1, 7, 1, "2026-06-01T00:00:00+00:00"⟩,
   ⟨1, 7, 1, "2026-06-01T00:00:01+00:00"⟩,
   ⟨1, 7, 1, "2026-06-01T00:00:02+00:00"⟩,
   ⟨1, 7, 2, "2026-06-01T00:00:03+00:00"⟩]

theorem per_user_limit_witness :
    (alookup c7Store.productInfo 10 = some c7Info ∧
     countOf c7Store 1 10 ≤ c7Info.purchase_limit) ∧
    countOf (runAdmissions c7Store c7Attempts).2 1 10 ≤ c7Info.purchase_limit :=
  ⟨⟨by decide, by decide⟩,
   per_user_limit.1 c7Store c7Attempts 1 10 c7Info (by decide) (by decide)⟩

/-- Offer metadata for the admission-contract witness. -/
def c8Info : SeckillProductInfo :=
  ⟨1, 7, "3.50", 2, "2026-01-01T00:00:00+00:00", "2026-12-31T00:00:00+00:00"⟩

/-- Preloaded fast store for the admission-contract witness, stock 3. -/
def c8Store : FastStore :=
  ⟨[(7, 10)], [(10, c8Info)], [(10, 3)], []⟩

theorem admission_contract_witness :
    (alookup c8Store.skuMap 7 = some 10 ∧
     alookup c8Store.productInfo 10 = some c8Info ∧
     alookup c8Store.stock 10 = some 3) ∧
    (((seckillAdmission c8Store 1 7 1 "2026-06-01T00:00:00+00:00").1 =
        .success 10 c8Info.seckill_price) ↔
      (¬ luaStrLt "2026-06-01T00:00:00+00:00" c8Info.start_time ∧
       ¬ luaStrLt c8Info.end_time "2026-06-01T00:00:00+00:00" ∧
       (1 : Int) ≤ 3 ∧ countOf c8Store 1 10 + 1 ≤ c8Info.purchase_limit)) :=
  ⟨⟨by decide, by decide, by decide⟩,
   (admission_contract.2 c8Store 1 7 1 "2026-06-01T00:00:00+00:00" 10 c8Info 3
     (by decide) (by decide) (by decide)).1⟩

/-! ## The durable stock ledger (InventoryService)

Rows of `inventory_items` and `inventory_transactions`, and the mutating
operations of `app/services/inventory_service.py`.  A business failure
(insufficient stock, missing row) raises an exception in the source, which
the caller's transaction turns into a rollback; here operations return
`Except` and a failed operation leaves the ledger unchanged. -/

/-- `InventoryTransactionType` enumeration. -/
inductive InvTxType where
  | stock_in
  | stock_out
  | reserve
  | release
  | adjust
  | transfer_in
  | transfer_out
deriving DecidableEq, Repr

/-- A row of `inventory_transactions` (the append-only ledger log). -/
structure InvTx where
  inventory_item_id : Nat
  transaction_type : InvTxType
  quantity : Int
  reference_id : Option String
  reference_type : Option String
deriving DecidableEq, Repr

/-- A row of `inventory_items`: per-(SKU, warehouse) counters.  The model and
DB default `alert_threshold` to 10 on creation. -/
structure InvItem where
  id : Nat
  sku_id : Nat
  warehouse_id : Nat
  quantity : Int
  reserved_quantity : Int
  alert_threshold : Int
deriving DecidableEq, Repr

/-- The relational inventory state: item rows plus the transaction log. -/
structure Ledger where
  items : List InvItem
  txs : List InvTx
deriving DecidableEq, Repr

/-- Business exceptions of the inventory service:
`InsufficientStockException` and the `ValueError` raised on a missing
referenced row (data inconsistency). -/
inductive InvError where
  | insufficientStock
  | dataInconsistency
deriving DecidableEq, Repr

/-- The SUM of `quantity - reserved_quantity` over the item rows of a SKU,
optionally restricted to one warehouse (`check_stock_availability`'s query;
an empty result sums to 0 via `result.scalar() or 0`). -/
def availableSum (L : Ledger) (sku : Nat) (w : Option Nat) : Int :=
  ((L.items.filter (fun it =>
      decide (it.sku_id = sku) &&
      match w with
      | some wid => decide (it.warehouse_id = wid)
      | none => true)).map
    (fun it => it.quantity - it.reserved_quantity)).sum

/-- `InventoryService.check_stock_availability`. -/
def check_stock_availability (L : Ledger) (sku : Nat) (qty : Int)
    (w : Option Nat) : Bool :=
  decide (qty ≤ availableSum L sku w)

/-- The row of minimal warehouse id in a list: the `ORDER BY warehouse_id
LIMIT 1` selection of `reserve_stock` when no warehouse is given. -/
def minByWarehouse : List InvItem → Option InvItem
  | [] => none
  | it :: rest =>
    match minByWarehouse rest with
    | none => some it
    | some it' => if it.warehouse_id ≤ it'.warehouse_id then some it else some it'

/-- `InventoryService.reserve_stock`: check total availability, pick the
target row (the given warehouse's row, or the first single warehouse with
enough available stock ordered by warehouse id), then increment
`reserved_quantity` and append one RESERVE transaction.  Never splits a
reservation across warehouses. -/
def reserve_stock (L : Ledger) (sku : Nat) (qty : Int) (rid rtype : String)
    (w : Option Nat) : Except InvError Ledger :=
  if check_stock_availability L sku qty w = false then
    .error .insufficientStock
  else
    let cand : Option InvItem :=
      match w with
      | some wid =>
        (L.items.filter (fun it =>
          decide (it.sku_id = sku) && decide (it.warehouse_id = wid))).head?
      | none =>
        minByWarehouse (L.items.filter (fun it =>
          decide (it.sku_id = sku) &&
          decide (qty ≤ it.quantity - it.reserved_quantity)))
    match cand with
    | none => .error .insufficientStock
    | some item =>
      .ok { items := L.items.map (fun it =>
              if it.id = item.id then
                { it with reserved_quantity := it.reserved_quantity + qty }
              else it),
            txs := L.txs ++ [⟨item.id, .reserve, qty, some rid, some rtype⟩] }

/-- The RESERVE transactions `release_reserved_stock` matches: same
reference id, a reference type among the given original types. -/
def matchesRelease (rid : String) (types : List String) (tx : InvTx) : Bool :=
  decide (tx.reference_id = some rid) &&
  (match tx.reference_type with
   | some t => decide (t ∈ types)
   | none => false) &&
  decide (tx.transaction_type = InvTxType.reserve)

/-- `InventoryService.release_reserved_stock`: no matching RESERVE
transaction is a logged-warning no-op; a missing referenced item row raises
`ValueError` (rolled back by the caller, hence ledger unchanged); otherwise
each matching transaction's quantity is subtracted from its row's
`reserved_quantity` and a RELEASE transaction tagged with the new reference
type is appended. -/
def release_reserved_stock (L : Ledger) (rid : String) (types : List String)
    (newType : String) : Except InvError Ledger :=
  let matched := L.txs.filter (matchesRelease rid types)
  if matched.isEmpty then .ok L
  else if matched.all (fun tx =>
      L.items.any (fun it => decide (it.id = tx.inventory_item_id))) then
    .ok { items := matched.foldl
            (fun items tx => items.map (fun it =>
              if it.id = tx.inventory_item_id then
                { it with reserved_quantity := it.reserved_quantity - tx.quantity }
              else it))
            L.items,
          txs := L.txs ++ matched.map (fun tx =>
            (⟨tx.inventory_item_id, .release, tx.quantity, some rid,
              some newType⟩ : InvTx)) }
  else .error .dataInconsistency

/-- The RESERVE transactions `commit_reserved_stock` matches: reference id
equal to the order number and reference type exactly "order_creation". -/
def matchesCommit (order_sn : String) (tx : InvTx) : Bool :=
  decide (tx.reference_id = some order_sn) &&
  decide (tx.reference_type = some "order_creation") &&
  decide (tx.transaction_type = InvTxType.reserve)

/-- `InventoryService.commit_reserved_stock` (payment success path): find the
order's RESERVE transactions tagged "order_creation"; none found is a
logged-warning no-op; otherwise decrement both `quantity` and
`reserved_quantity` per transaction and append STOCK_OUT transactions tagged
"payment_confirmation".  (The row UPDATE by id touches nothing when the row
is absent, as in the source.) -/
def commit_reserved_stock (L : Ledger) (order_sn : String) : Ledger :=
  let matched := L.txs.filter (matchesCommit order_sn)
  if matched.isEmpty then L
  else
    { items := matched.foldl
        (fun items tx => items.map (fun it =>
          if it.id = tx.inventory_item_id then
            { it with
                quantity := it.quantity - tx.quantity,
                reserved_quantity := it.reserved_quantity - tx.quantity }
          else it))
        L.items,
      txs := L.txs ++ matched.map (fun tx =>
        (⟨tx.inventory_item_id, .stock_out, tx.quantity, some order_sn,
          some "payment_confirmation"⟩ : InvTx)) }

/-- `InventoryService.confirm_stock_out`: like the commit path but matching
reference type exactly "reserve", returning False (no write) when nothing
matches. -/
def confirm_stock_out (L : Ledger) (rid rtype : String) : Ledger × Bool :=
  let matched := L.txs.filter (fun tx =>
    decide (tx.reference_id = some rid) &&
    decide (tx.reference_type = some "reserve") &&
    decide (tx.transaction_type = InvTxType.reserve))
  if matched.isEmpty then (L, false)
  else
    ({ items := matched.foldl
         (fun items tx => items.map (fun it =>
           if it.id = tx.inventory_item_id then
             { it with
                 quantity := it.quantity - tx.quantity,
                 reserved_quantity := it.reserved_quantity - tx.quantity }
           else it))
         L.items,
       txs := L.txs ++ matched.map (fun tx =>
         (⟨tx.inventory_item_id, .stock_out, tx.quantity, some rid,
           some rtype⟩ : InvTx)) }, true)

/-- A fresh autoincrement id for a newly created item row. -/
def nextId (L : Ledger) : Nat :=
  (L.items.map (fun it => it.id)).foldr max 0 + 1

/-- `InventoryService._get_or_create_inventory_item`: the (SKU, warehouse)
row, created with `quantity = reserved_quantity = 0` when absent.  (The
SKU/warehouse existence checks of the source are outside this model.) -/
def getOrCreateItem (L : Ledger) (sku wid : Nat) : InvItem × Ledger :=
  match (L.items.filter (fun it =>
      decide (it.sku_id = sku) && decide (it.warehouse_id = wid))).head? with
  | some it => (it, L)
  | none =>
    let it : InvItem := ⟨nextId L, sku, wid, 0, 0, 10⟩
    (it, { L with items := L.items ++ [it] })

/-- `InventoryService.stock_in`: get or create the row, add the quantity,
append a STOCK_IN transaction. -/
def stock_in (L : Ledger) (sku wid : Nat) (qty : Int)
    (rid rtype : Option String) : Ledger :=
  let pair := getOrCreateItem L sku wid
  { items := pair.2.items.map (fun it =>
      if it.id = pair.1.id then { it with quantity := it.quantity + qty }
      else it),
    txs := pair.2.txs ++ [⟨pair.1.id, .stock_in, qty, rid, rtype⟩] }

/-- `InventoryService.adjust_stock`: get or create the row, set `quantity`
to the literal new value, record the signed delta as an ADJUST
transaction. -/
def adjust_stock (L : Ledger) (sku wid : Nat) (newQ : Int) : Ledger :=
  let pair := getOrCreateItem L sku wid
  { items := pair.2.items.map (fun it =>
      if it.id = pair.1.id then { it with quantity := newQ } else it),
    txs := pair.2.txs ++
      [⟨pair.1.id, .adjust, newQ - pair.1.quantity, none,
        some "inventory_adjustment"⟩] }

/-- `InventoryService.transfer_stock`: check the source warehouse's
availability, decrement the source row, create-or-increment the destination
row, and record a TRANSFER_OUT / TRANSFER_IN pair. -/
def transfer_stock (L : Ledger) (sku fromW toW : Nat) (qty : Int) :
    Except InvError Ledger :=
  if check_stock_availability L sku qty (some fromW) = false then
    .error .insufficientStock
  else
    match (L.items.filter (fun it =>
        decide (it.sku_id = sku) && decide (it.warehouse_id = fromW))).head? with
    | none => .error .dataInconsistency
    | some fromItem =>
      let pair := getOrCreateItem L sku toW
      .ok { items :=
              (pair.2.items.map (fun it =>
                if it.id = fromItem.id then
                  { it with quantity := it.quantity - qty }
                else it)).map (fun it =>
                if it.id = pair.1.id then
                  { it with quantity := it.quantity + qty }
                else it),
            txs := pair.2.txs ++
              [⟨fromItem.id, .transfer_out, qty,
                some ("sku_" ++ toString sku ++ "_to_" ++ toString toW),
                some "inventory_transfer"⟩,
               ⟨pair.1.id, .transfer_in, qty,
                some ("sku_" ++ toString sku ++ "_from_" ++ toString fromW),
                some "inventory_transfer"⟩] }

theorem minByWarehouse_eq_none : ∀ (l : List InvItem),
    minByWarehouse l = none → l = [] := by
  intro l h
  cases l with
  | nil => rfl
  | cons x rest =>
    simp only [minByWarehouse] at h
    rcases hrec : minByWarehouse rest with _ | y <;> rw [hrec] at h
    · simp at h
    · by_cases hle : x.warehouse_id ≤ y.warehouse_id <;>
        simp [hle] at h

theorem minByWarehouse_mem : ∀ (l : List InvItem) (y : InvItem),
    minByWarehouse l = some y → y ∈ l := by
  intro l
  induction l with
  | nil =>
    intro y h
    simp [minByWarehouse] at h
  | cons x rest ih =>
    intro y h
    simp only [minByWarehouse] at h
    rcases hrec : minByWarehouse rest with _ | y' <;> rw [hrec] at h <;>
      dsimp only at h
    · simp only [Option.some.injEq] at h
      subst h
      exact List.mem_cons_self x rest
    · by_cases hle : x.warehouse_id ≤ y'.warehouse_id
      · rw [if_pos hle] at h
        simp only [Option.some.injEq] at h
        subst h
        exact List.mem_cons_self x rest
      · rw [if_neg hle] at h
        simp only [Option.some.injEq] at h
        subst h
        exact List.mem_cons_of_mem x (ih _ hrec)

theorem minByWarehouse_le : ∀ (l : List InvItem) (y : InvItem),
    minByWarehouse l = some y → ∀ z ∈ l, y.warehouse_id ≤ z.warehouse_id := by
  intro l
  induction l with
  | nil =>
    intro y h
    simp [minByWarehouse] at h
  | cons x rest ih =>
    intro y h z hz
    simp only [minByWarehouse] at h
    rcases hrec : minByWarehouse rest with _ | y' <;> rw [hrec] at h <;>
      dsimp only at h
    · have hrest : rest = [] := minByWarehouse_eq_none rest hrec
      subst hrest
      simp only [Option.some.injEq] at h
      subst h
      rcases List.mem_cons.mp hz with hzx | hzr
      · subst hzx
        exact Nat.le_refl _
      · simp at hzr
    · by_cases hle : x.warehouse_id ≤ y'.warehouse_id
      · rw [if_pos hle] at h
        simp only [Option.some.injEq] at h
        subst h
        rcases List.mem_cons.mp hz with hzx | hzr
        · subst hzx
          exact Nat.le_refl _
        · exact Nat.le_trans hle (ih y' hrec z hzr)
      · rw [if_neg hle] at h
        simp only [Option.some.injEq] at h
        subst h
        rcases List.mem_cons.mp hz with hzx | hzr
        · subst hzx
          omega
        · exact ih y' hrec z hzr

/-- C4: `reserve_stock` with no warehouse given.  If no single warehouse row
of the SKU has available stock covering the quantity, it raises
InsufficientStock (regardless of the combined availability, which it never
splits); otherwise it reserves wholly from the eligible row with the
smallest warehouse id, appending exactly one RESERVE transaction. -/
theorem reserve_single_warehouse :
    (∀ (L : Ledger) (sku : Nat) (qty : Int) (rid rtype : String),
        L.items.filter (fun it =>
          decide (it.sku_id = sku) &&
          decide (qty ≤ it.quantity - it.reserved_quantity)) = [] →
        reserve_stock L sku qty rid rtype none = .error .insufficientStock) ∧
    (∀ (L : Ledger) (sku : Nat) (qty : Int) (rid rtype : String) (item : InvItem),
        (∀ it ∈ L.items, it.sku_id = sku → 0 ≤ it.quantity - it.reserved_quantity) →
        item ∈ L.items.filter (fun it =>
          decide (it.sku_id = sku) &&
          decide (qty ≤ it.quantity - it.reserved_quantity)) →
        (∀ it ∈ L.items.filter (fun it =>
            decide (it.sku_id = sku) &&
            decide (qty ≤ it.quantity - it.reserved_quantity)),
          item.warehouse_id ≤ it.warehouse_id) →
        ((L.items.filter (fun it =>
            decide (it.sku_id = sku) &&
            decide (qty ≤ it.quantity - it.reserved_quantity))).map
          (fun it => it.warehouse_id)).Nodup →
        reserve_stock L sku qty rid rtype none =
          .ok { items := L.items.map (fun it =>
                  if it.id = item.id then
                    { it with reserved_quantity := it.reserved_quantity + qty }
                  else it),
                txs := L.txs ++ [⟨item.id, .reserve, qty, some rid, some rtype⟩] }) := by
  constructor
  · intro L sku qty rid rtype hfilter
    unfold reserve_stock
    by_cases hc : check_stock_availability L sku qty none = false
    · rw [if_pos hc]
    · rw [if_neg hc, hfilter]
      rfl
  · intro L sku qty rid rtype item hnn hmem hmin hnodup
    have hpred := (List.mem_filter.mp hmem).2
    simp only [Bool.and_eq_true, decide_eq_true_eq] at hpred
    obtain ⟨hsku, hq⟩ := hpred
    have hmemL : item ∈ L.items := (List.mem_filter.mp hmem).1
    have hsum : qty ≤ availableSum L sku none := by
      unfold availableSum
      have hmem2 : item ∈ L.items.filter (fun it =>
          decide (it.sku_id = sku) &&
          match (none : Option Nat) with
          | some wid => decide (it.warehouse_id = wid)
          | none => true) := by
        rw [List.mem_filter]
        exact ⟨hmemL, by simp [hsku]⟩
      have hval : item.quantity - item.reserved_quantity ∈
          (L.items.filter (fun it =>
            decide (it.sku_id = sku) &&
            match (none : Option Nat) with
            | some wid => decide (it.warehouse_id = wid)
            | none => true)).map (fun it => it.quantity - it.reserved_quantity) :=
        List.mem_map_of_mem _ hmem2
      have hnn' : ∀ x ∈ (L.items.filter (fun it =>
          decide (it.sku_id = sku) &&
          match (none : Option Nat) with
          | some wid => decide (it.warehouse_id = wid)
          | none => true)).map (fun it => it.quantity - it.reserved_quantity),
          0 ≤ x := by
        intro x hx
        obtain ⟨it, hit, hxeq⟩ := List.mem_map.mp hx
        have := List.mem_filter.mp hit
        simp only [Bool.and_eq_true, decide_eq_true_eq] at this
        subst hxeq
        exact hnn it this.1 this.2.1
      calc qty ≤ item.quantity - item.reserved_quantity := hq
      _ ≤ _ := List.single_le_sum hnn' _ hval
    have hcheck : check_stock_availability L sku qty none = true := by
      unfold check_stock_availability
      exact decide_eq_true hsum
    have hne : L.items.filter (fun it =>
        decide (it.sku_id = sku) &&
        decide (qty ≤ it.quantity - it.reserved_quantity)) ≠ [] := by
      intro hEq
      rw [hEq] at hmem
      simp at hmem
    rcases hmbw : minByWarehouse (L.items.filter (fun it =>
        decide (it.sku_id = sku) &&
        decide (qty ≤ it.quantity - it.reserved_quantity))) with _ | y
    · exact absurd (minByWarehouse_eq_none _ hmbw) hne
    have hymem := minByWarehouse_mem _ _ hmbw
    have hyle := minByWarehouse_le _ _ hmbw
    have hwid : y.warehouse_id = item.warehouse_id :=
      Nat.le_antisymm (hyle item hmem) (hmin y hymem)
    have hyitem : y = item := by
      have := List.inj_on_of_nodup_map hnodup
      exact this hymem hmem hwid
    subst hyitem
    unfold reserve_stock
    rw [if_neg (by rw [hcheck]; simp), hmbw]

/-- Ledger with SKU 5 split 3 + 3 across two warehouses (no single warehouse
can satisfy a request for 5). -/
def c4Split : Ledger :=
  ⟨[⟨1, 5, 1, 3, 0, 10⟩, ⟨2, 5, 2, 3, 0, 10⟩], []⟩

/-- Ledger with SKU 5 available 2 in warehouse 1 (row id 2) and 9 in
warehouse 2 (row id 1). -/
def c4Ledger : Ledger :=
  ⟨[⟨1, 5, 2, 9, 0, 10⟩, ⟨2, 5, 1, 4, 2, 10⟩], []⟩

theorem reserve_single_warehouse_witness :
    (c4Split.items.filter (fun it =>
        decide (it.sku_id = 5) &&
        decide ((5 : Int) ≤ it.quantity - it.reserved_quantity)) = [] ∧
     (5 : Int) ≤ availableSum c4Split 5 none ∧
     reserve_stock c4Split 5 5 "R0" "order_creation" none =
       .error .insufficientStock) ∧
    ((∀ it ∈ c4Ledger.items, it.sku_id = 5 → 0 ≤ it.quantity - it.reserved_quantity) ∧
     reserve_stock c4Ledger 5 2 "R1" "order_creation" none =
       .ok { items := c4Ledger.items.map (fun it =>
               if it.id = (2 : Nat) then
                 { it with reserved_quantity := it.reserved_quantity + 2 }
               else it),
             txs := c4Ledger.txs ++
               [⟨2, .reserve, 2, some "R1", some "order_creation"⟩] }) :=
  ⟨⟨by decide, by decide,
    reserve_single_warehouse.1 c4Split 5 5 "R0" "order_creation" (by decide)⟩,
   ⟨by decide,
    reserve_single_warehouse.2 c4Ledger 5 2 "R1" "order_creation"
      ⟨2, 5, 1, 4, 2, 10⟩ (by decide) (by decide) (by decide) (by decide)⟩⟩

/-- The total quantity of the matched transactions charged to one item row. -/
def itemMatchSum (matched : List InvTx) (i : Nat) : Int :=
  ((matched.filter (fun tx => decide (tx.inventory_item_id = i))).map
    (fun tx => tx.quantity)).sum

theorem itemMatchSum_nil (i : Nat) : itemMatchSum [] i = 0 := rfl

theorem itemMatchSum_cons (tx : InvTx) (rest : List InvTx) (i : Nat) :
    itemMatchSum (tx :: rest) i =
      (if tx.inventory_item_id = i then tx.quantity else 0) +
        itemMatchSum rest i := by
  by_cases h : tx.inventory_item_id = i <;>
    simp [itemMatchSum, List.filter, h]

/-- Closed form of the release loop: each row's reserved quantity drops by
the summed quantity of the matched transactions charged to it. -/
theorem foldl_dec_reserved (matched : List InvTx) (items : List InvItem) :
    matched.foldl (fun acc tx => acc.map (fun it =>
      if it.id = tx.inventory_item_id then
        { it with reserved_quantity := it.reserved_quantity - tx.quantity }
      else it)) items =
    items.map (fun it =>
      { it with reserved_quantity :=
          it.reserved_quantity - itemMatchSum matched it.id }) := by
  induction matched generalizing items with
  | nil =>
    simp only [List.foldl_nil, itemMatchSum_nil]
    have h : ∀ it ∈ items,
        ({ it with reserved_quantity := it.reserved_quantity - 0 } : InvItem) = it := by
      intro it _
      simp
    rw [List.map_congr_left h]
    simp
  | cons tx rest ih =>
    simp only [List.foldl_cons]
    rw [ih, List.map_map]
    apply List.map_congr_left
    intro it _
    simp only [Function.comp]
    by_cases h : it.id = tx.inventory_item_id
    · simp only [if_pos h, itemMatchSum_cons, if_pos h.symm]
      congr 1
      omega
    · simp only [if_neg h, itemMatchSum_cons, if_neg (Ne.symm h)]
      congr 1
      omega

/-- Closed form of the stock-out loop: both counters drop by the summed
matched quantity charged to the row. -/
theorem foldl_dec_both (matched : List InvTx) (items : List InvItem) :
    matched.foldl (fun acc tx => acc.map (fun it =>
      if it.id = tx.inventory_item_id then
        { it with
            quantity := it.quantity - tx.quantity,
            reserved_quantity := it.reserved_quantity - tx.quantity }
      else it)) items =
    items.map (fun it =>
      { it with
          quantity := it.quantity - itemMatchSum matched it.id,
          reserved_quantity :=
            it.reserved_quantity - itemMatchSum matched it.id }) := by
  induction matched generalizing items with
  | nil =>
    simp only [List.foldl_nil, itemMatchSum_nil]
    have h : ∀ it ∈ items,
        ({ it with
            quantity := it.quantity - 0,
            reserved_quantity := it.reserved_quantity - 0 } : InvItem) = it := by
      intro it _
      simp
    rw [List.map_congr_left h]
    simp
  | cons tx rest ih =>
    simp only [List.foldl_cons]
    rw [ih, List.map_map]
    apply List.map_congr_left
    intro it _
    simp only [Function.comp]
    by_cases h : it.id = tx.inventory_item_id
    · simp only [if_pos h, itemMatchSum_cons, if_pos h.symm]
      congr 1 <;> omega
    · simp only [if_neg h, itemMatchSum_cons, if_neg (Ne.symm h)]
      congr 1 <;> omega

/-- Evaluation of a non-empty release whose matched transactions all
reference existing rows. -/
theorem release_eval (L : Ledger) (rid : String) (types : List String)
    (newType : String)
    (hne : L.txs.filter (matchesRelease rid types) ≠ [])
    (hall : ∀ tx ∈ L.txs.filter (matchesRelease rid types),
      ∃ it ∈ L.items, it.id = tx.inventory_item_id) :
    release_reserved_stock L rid types newType = .ok
      { items := L.items.map (fun it =>
          { it with reserved_quantity := it.reserved_quantity -
              itemMatchSum (L.txs.filter (matchesRelease rid types)) it.id }),
        txs := L.txs ++ (L.txs.filter (matchesRelease rid types)).map (fun tx =>
          (⟨tx.inventory_item_id, .release, tx.quantity, some rid,
            some newType⟩ : InvTx)) } := by
  have hempty : (L.txs.filter (matchesRelease rid types)).isEmpty = false := by
    rw [List.isEmpty_eq_false]
    exact hne
  have hallb : (L.txs.filter (matchesRelease rid types)).all (fun tx =>
      L.items.any (fun it => decide (it.id = tx.inventory_item_id))) = true := by
    rw [List.all_eq_true]
    intro tx htx
    rw [List.any_eq_true]
    obtain ⟨it, hit, hid⟩ := hall tx htx
    exact ⟨it, hit, decide_eq_true hid⟩
  simp only [release_reserved_stock, hempty, hallb, Bool.false_eq_true,
    if_false, if_true]
  rw [foldl_dec_reserved]

/-- A RELEASE transaction appended by a release never matches a later
release query (the query only matches RESERVE transactions). -/
theorem release_txs_no_match (rid rid' : String) (types : List String)
    (newType : String) (matched : List InvTx) :
    (matched.map (fun tx =>
      (⟨tx.inventory_item_id, .release, tx.quantity, some rid,
        some newType⟩ : InvTx))).filter (matchesRelease rid' types) = [] := by
  induction matched with
  | nil => rfl
  | cons tx rest ih =>
    simp only [List.map_cons, List.filter_cons]
    have hm : matchesRelease rid' types
        (⟨tx.inventory_item_id, .release, tx.quantity, some rid,
          some newType⟩ : InvTx) = false := by
      simp [matchesRelease]
    simp only [hm, Bool.false_eq_true, if_false]
    exact ih

deriving instance DecidableEq for Except

/-- C3 counterexample input: one row with 3 units reserved under reference
"R", and the RESERVE transaction that recorded it. -/
def c3Ledger : Ledger :=
  ⟨[⟨1, 1, 1, 5, 3, 10⟩],
   [⟨1, .reserve, 3, some "R", some "order_creation"⟩]⟩

/-- Ledger after releasing "R" once: reserved back to 0, RELEASE appended. -/
def c3Once : Ledger :=
  ⟨[⟨1, 1, 1, 5, 0, 10⟩],
   [⟨1, .reserve, 3, some "R", some "order_creation"⟩,
    ⟨1, .release, 3, some "R", some "order_cancellation"⟩]⟩

/-- Ledger after releasing "R" twice: reserved driven to -3. -/
def c3Twice : Ledger :=
  ⟨[⟨1, 1, 1, 5, -3, 10⟩],
   [⟨1, .reserve, 3, some "R", some "order_creation"⟩,
    ⟨1, .release, 3, some "R", some "order_cancellation"⟩,
    ⟨1, .release, 3, some "R", some "order_cancellation"⟩]⟩

/-- C3 counterexample: release is not idempotent.  The RESERVE transaction
stays matchable, so a second release for the same reference decrements
`reserved_quantity` again (0 after one call, -3 after two). -/
theorem release_not_idempotent :
    release_reserved_stock c3Ledger "R" ["order_creation"] "order_cancellation" =
      .ok c3Once ∧
    release_reserved_stock c3Once "R" ["order_creation"] "order_cancellation" =
      .ok c3Twice ∧
    c3Once.items.map (fun it => it.reserved_quantity) = [0] ∧
    c3Twice.items.map (fun it => it.reserved_quantity) = [-3] ∧
    c3Twice.items ≠ c3Once.items := by
  refine ⟨by decide, by decide, by decide, by decide, by decide⟩


/-- A release that matches nothing is a no-op on the ledger. -/
theorem release_noop (L : Ledger) (rid : String) (types : List String)
    (newType : String) (hm : L.txs.filter (matchesRelease rid types) = []) :
    release_reserved_stock L rid types newType = .ok L := by
  simp only [release_reserved_stock, hm]
  rfl

/-- C3 (amended): `release_reserved_stock` is a no-op when no RESERVE
transaction matches the reference id and original types, but it is not
idempotent in general: RESERVE transactions stay matchable after a release,
so two calls subtract every matching RESERVE quantity from
`reserved_quantity` twice. -/
theorem release_noop_and_repeat :
    (∀ (L : Ledger) (rid : String) (types : List String) (newType : String),
        L.txs.filter (matchesRelease rid types) = [] →
        release_reserved_stock L rid types newType = .ok L) ∧
    (∀ (L : Ledger) (rid : String) (types : List String) (newType : String)
        (L₁ L₂ : Ledger),
        release_reserved_stock L rid types newType = .ok L₁ →
        release_reserved_stock L₁ rid types newType = .ok L₂ →
        L₂.items = L.items.map (fun it =>
          { it with reserved_quantity :=
              it.reserved_quantity -
                2 * itemMatchSum (L.txs.filter (matchesRelease rid types)) it.id })) := by
  constructor
  · exact release_noop
  · intro L rid types newType L₁ L₂ h1 h2
    by_cases hm : L.txs.filter (matchesRelease rid types) = []
    · rw [release_noop L rid types newType hm] at h1
      have hL1 : L₁ = L := by
        injection h1 with h
        exact h.symm
      subst hL1
      rw [release_noop L₁ rid types newType hm] at h2
      have hL2 : L₂ = L₁ := by
        injection h2 with h
        exact h.symm
      subst hL2
      rw [hm]
      have h : ∀ it ∈ L₂.items,
          ({ it with reserved_quantity :=
              it.reserved_quantity - 2 * itemMatchSum [] it.id } : InvItem) = it := by
        intro it _
        simp [itemMatchSum_nil]
      rw [List.map_congr_left h]
      simp
    · by_cases hallb : (L.txs.filter (matchesRelease rid types)).all (fun tx =>
          L.items.any (fun it => decide (it.id = tx.inventory_item_id))) = true
      · have hall : ∀ tx ∈ L.txs.filter (matchesRelease rid types),
            ∃ it ∈ L.items, it.id = tx.inventory_item_id := by
          intro tx htx
          obtain ⟨it, hit, hd⟩ :=
            List.any_eq_true.mp (List.all_eq_true.mp hallb tx htx)
          exact ⟨it, hit, of_decide_eq_true hd⟩
        rw [release_eval L rid types newType hm hall] at h1
        injection h1 with h1eq
        have hitems1 : L₁.items = L.items.map (fun it =>
            { it with reserved_quantity := it.reserved_quantity -
                itemMatchSum (L.txs.filter (matchesRelease rid types)) it.id }) := by
          rw [← h1eq]
        have htxs1 : L₁.txs = L.txs ++
            (L.txs.filter (matchesRelease rid types)).map (fun tx =>
              (⟨tx.inventory_item_id, .release, tx.quantity, some rid,
                some newType⟩ : InvTx)) := by
          rw [← h1eq]
        have hfilter1 : L₁.txs.filter (matchesRelease rid types) =
            L.txs.filter (matchesRelease rid types) := by
          rw [htxs1, List.filter_append,
            release_txs_no_match rid rid types newType _, List.append_nil]
        have hne1 : L₁.txs.filter (matchesRelease rid types) ≠ [] := by
          rw [hfilter1]
          exact hm
        have hall1 : ∀ tx ∈ L₁.txs.filter (matchesRelease rid types),
            ∃ it ∈ L₁.items, it.id = tx.inventory_item_id := by
          rw [hfilter1, hitems1]
          intro tx htx
          obtain ⟨it, hit, hid⟩ := hall tx htx
          exact ⟨{ it with reserved_quantity :=
              it.reserved_quantity - itemMatchSum (L.txs.filter (matchesRelease rid types)) it.id },
            List.mem_map_of_mem _ hit, hid⟩
        rw [release_eval L₁ rid types newType hne1 hall1] at h2
        injection h2 with h2eq
        rw [← h2eq]
        simp only [hfilter1, hitems1, List.map_map]
        apply List.map_congr_left
        intro it _
        simp only [Function.comp]
        congr 1
        omega
      · exfalso
        have hempty : (L.txs.filter (matchesRelease rid types)).isEmpty = false := by
          rw [List.isEmpty_eq_false]
          exact hm
        have herr : release_reserved_stock L rid types newType =
            .error .dataInconsistency := by
          simp only [release_reserved_stock, hempty, Bool.false_eq_true, if_false]
          rw [if_neg hallb]
        rw [herr] at h1
        exact absurd h1 (by simp)

theorem release_noop_and_repeat_witness :
    (c3Ledger.txs.filter (matchesRelease "X" ["order_creation"]) = [] ∧
     release_reserved_stock c3Ledger "X" ["order_creation"] "manual_release" =
       .ok c3Ledger) ∧
    ((release_reserved_stock c3Ledger "R" ["order_creation"]
        "order_cancellation" = .ok c3Once ∧
      release_reserved_stock c3Once "R" ["order_creation"]
        "order_cancellation" = .ok c3Twice) ∧
     c3Twice.items = c3Ledger.items.map (fun it =>
       { it with reserved_quantity :=
           it.reserved_quantity - 2 * itemMatchSum (c3Ledger.txs.filter (matchesRelease "R" ["order_creation"])) it.id })) :=
  ⟨⟨by decide,
    release_noop_and_repeat.1 c3Ledger "X" ["order_creation"] "manual_release"
      (by decide)⟩,
   ⟨⟨by decide, by decide⟩,
    release_noop_and_repeat.2 c3Ledger "R" ["order_creation"]
      "order_cancellation" c3Once c3Twice (by decide) (by decide)⟩⟩

/-- A successful reservation appends exactly one RESERVE transaction carrying
the given reference id and type. -/
theorem reserve_stock_txs (L : Ledger) (sku : Nat) (qty : Int)
    (rid rtype : String) (w : Option Nat) (L' : Ledger)
    (h : reserve_stock L sku qty rid rtype w = .ok L') :
    ∃ itemId, L'.txs = L.txs ++
      [⟨itemId, .reserve, qty, some rid, some rtype⟩] := by
  unfold reserve_stock at h
  by_cases hc : check_stock_availability L sku qty w = false
  · rw [if_pos hc] at h
    exact absurd h (by simp)
  · rw [if_neg hc] at h
    rcases w with _ | wid
    · dsimp only at h
      rcases hmb : minByWarehouse (L.items.filter (fun it =>
          decide (it.sku_id = sku) &&
          decide (qty ≤ it.quantity - it.reserved_quantity))) with _ | item <;>
        rw [hmb] at h
      · exact absurd h (by simp)
      · injection h with heq
        exact ⟨item.id, by rw [← heq]⟩
    · dsimp only at h
      rcases hh : (L.items.filter (fun it =>
          decide (it.sku_id = sku) && decide (it.warehouse_id = wid))).head? with
        _ | item <;> rw [hh] at h
      · exact absurd h (by simp)
      · injection h with heq
        exact ⟨item.id, by rw [← heq]⟩

/-- C10: the payment path never converts a flash-sale reservation.
`commit_reserved_stock` only matches RESERVE transactions tagged
"order_creation", while the materializer reserves with reference type
"seckill_order_creation"; so after a materializer reservation under a fresh
order number, processing the payment notification's stock commit is a no-op
on the ledger (warning logged, no row changed, no OUT transaction). -/
theorem seckill_reservation_not_committed :
    ∀ (L : Ledger) (sku : Nat) (qty : Int) (sn : String) (w : Option Nat)
      (L' : Ledger),
      (∀ tx ∈ L.txs, tx.reference_id ≠ some sn) →
      reserve_stock L sku qty sn "seckill_order_creation" w = .ok L' →
      commit_reserved_stock L' sn = L' := by
  intro L sku qty sn w L' hfresh h
  obtain ⟨itemId, htxs⟩ := reserve_stock_txs L sku qty sn
    "seckill_order_creation" w L' h
  have hmatched : L'.txs.filter (matchesCommit sn) = [] := by
    rw [htxs, List.filter_append]
    have h1 : L.txs.filter (matchesCommit sn) = [] := by
      rw [List.filter_eq_nil_iff]
      intro tx htx
      simp only [matchesCommit, Bool.and_eq_true, decide_eq_true_eq]
      intro hcon
      exact absurd hcon.1.1 (hfresh tx htx)
    have hne : ("seckill_order_creation" : String) ≠ "order_creation" := by
      decide
    have h2 : ([(⟨itemId, .reserve, qty, some sn,
        some "seckill_order_creation"⟩ : InvTx)] : List InvTx).filter
          (matchesCommit sn) = [] := by
      simp [matchesCommit, hne]
    rw [h1, h2]
    rfl
  simp only [commit_reserved_stock, hmatched]
  rfl

/-- Ledger before the materializer's reservation in the C10 witness. -/
def c10Ledger : Ledger :=
  ⟨[⟨1, 7, 1, 10, 0, 10⟩], []⟩

/-- Ledger after the materializer reserves 1 unit of SKU 7 under order
"SKSN1" with reference type "seckill_order_creation". -/
def c10After : Ledger :=
  ⟨[⟨1, 7, 1, 10, 1, 10⟩],
   [⟨1, .reserve, 1, some "SKSN1", some "seckill_order_creation"⟩]⟩

theorem seckill_reservation_not_committed_witness :
    ((∀ tx ∈ c10Ledger.txs, tx.reference_id ≠ some "SKSN1") ∧
     reserve_stock c10Ledger 7 1 "SKSN1" "seckill_order_creation" none =
       .ok c10After) ∧
    commit_reserved_stock c10After "SKSN1" = c10After :=
  ⟨⟨by decide, by decide⟩,
   seckill_reservation_not_committed c10Ledger 7 1 "SKSN1" none c10After
     (by decide) (by decide)⟩

/-! ## The database session: staged work vs. committed state

`staged` is what the open transaction sees; `committed` is the durable
state.  `db.commit()` copies staged to committed; `db.rollback()` restores
staged from committed.  Each service function calls (or does not call)
`db.commit()` exactly where the source does. -/

structure DbSession where
  staged : Ledger
  committed : Ledger
deriving DecidableEq, Repr

/-- `reserve_stock` inside the caller's transaction: stages only, raises
before any write on failure, never commits. -/
def reserve_stock_session (s : DbSession) (sku : Nat) (qty : Int)
    (rid rtype : String) (w : Option Nat) : DbSession × Option InvError :=
  match reserve_stock s.staged sku qty rid rtype w with
  | .ok L' => ({ s with staged := L' }, none)
  | .error e => (s, some e)

/-- `release_reserved_stock` inside the caller's transaction: never
commits. -/
def release_reserved_stock_session (s : DbSession) (rid : String)
    (types : List String) (newType : String) : DbSession × Option InvError :=
  match release_reserved_stock s.staged rid types newType with
  | .ok L' => ({ s with staged := L' }, none)
  | .error e => (s, some e)

/-- `commit_reserved_stock` stages its updates; the enclosing transaction is
committed by `OrderService`, not here. -/
def commit_reserved_stock_session (s : DbSession) (sn : String) : DbSession :=
  { s with staged := commit_reserved_stock s.staged sn }

/-- `stock_in` performs its updates and then calls `await db.commit()`
itself. -/
def stock_in_session (s : DbSession) (sku wid : Nat) (qty : Int)
    (rid rtype : Option String) : DbSession :=
  let L' := stock_in s.staged sku wid qty rid rtype
  ⟨L', L'⟩

/-- `adjust_stock` performs its updates and then calls `await db.commit()`
itself. -/
def adjust_stock_session (s : DbSession) (sku wid : Nat) (newQ : Int) :
    DbSession :=
  let L' := adjust_stock s.staged sku wid newQ
  ⟨L', L'⟩

/-- `transfer_stock` commits on success and rolls the transaction back on
failure, both inside the service. -/
def transfer_stock_session (s : DbSession) (sku fromW toW : Nat) (qty : Int) :
    DbSession × Option InvError :=
  match transfer_stock s.staged sku fromW toW qty with
  | .ok L' => (⟨L', L'⟩, none)
  | .error e => (⟨s.committed, s.committed⟩, some e)

/-- `confirm_stock_out` returns False before the try-block (no commit) when
nothing matches, and otherwise commits inside the service. -/
def confirm_stock_out_session (s : DbSession) (rid rtype : String) :
    DbSession × Bool :=
  let pair := confirm_stock_out s.staged rid rtype
  if pair.2 then (⟨pair.1, pair.1⟩, true) else (s, false)

/-- A clean session over a one-row ledger. -/
def c9Session : DbSession :=
  ⟨⟨[⟨1, 1, 1, 0, 0, 10⟩], []⟩, ⟨[⟨1, 1, 1, 0, 0, 10⟩], []⟩⟩

/-- C9 counterexample: `stock_in` and `adjust_stock` commit the transaction
themselves — the committed state changes without any caller-issued commit,
contradicting the claim that no ledger operation commits. -/
theorem ledger_commit_counterexample :
    (stock_in_session c9Session 1 1 5 none none).committed ≠
      c9Session.committed ∧
    (adjust_stock_session c9Session 1 1 7).committed ≠ c9Session.committed := by
  refine ⟨by decide, by decide⟩

/-- C9 (amended): `reserve_stock`, `release_reserved_stock` and
`commit_reserved_stock` only stage their updates and leave the commit to
the caller; `stock_in`, `adjust_stock` and `transfer_stock` end with the
transaction closed by the service itself (committed on success, rolled back
on failure), and `confirm_stock_out` commits when it matched reservations
and returns False without touching the session otherwise. -/
theorem ledger_commit_discipline :
    (∀ (s : DbSession) (sku : Nat) (qty : Int) (rid rtype : String)
        (w : Option Nat),
        (reserve_stock_session s sku qty rid rtype w).1.committed =
          s.committed) ∧
    (∀ (s : DbSession) (rid : String) (types : List String) (newType : String),
        (release_reserved_stock_session s rid types newType).1.committed =
          s.committed) ∧
    (∀ (s : DbSession) (sn : String),
        (commit_reserved_stock_session s sn).committed = s.committed) ∧
    (∀ (s : DbSession) (sku wid : Nat) (qty : Int) (rid rtype : Option String),
        (stock_in_session s sku wid qty rid rtype).committed =
          (stock_in_session s sku wid qty rid rtype).staged) ∧
    (∀ (s : DbSession) (sku wid : Nat) (newQ : Int),
        (adjust_stock_session s sku wid newQ).committed =
          (adjust_stock_session s sku wid newQ).staged) ∧
    (∀ (s : DbSession) (sku fromW toW : Nat) (qty : Int),
        (transfer_stock_session s sku fromW toW qty).1.committed =
          (transfer_stock_session s sku fromW toW qty).1.staged) ∧
    (∀ (s : DbSession) (rid rtype : String),
        ((confirm_stock_out_session s rid rtype).2 = true →
          (confirm_stock_out_session s rid rtype).1.committed =
            (confirm_stock_out_session s rid rtype).1.staged) ∧
        ((confirm_stock_out_session s rid rtype).2 = false →
          confirm_stock_out_session s rid rtype = (s, false))) := by
  refine ⟨?_, ?_, ?_, ?_, ?_, ?_, ?_⟩
  · intro s sku qty rid rtype w
    unfold reserve_stock_session
    rcases reserve_stock s.staged sku qty rid rtype w with e | L' <;> rfl
  · intro s rid types newType
    unfold release_reserved_stock_session
    rcases release_reserved_stock s.staged rid types newType with e | L' <;> rfl
  · intro s sn
    rfl
  · intro s sku wid qty rid rtype
    rfl
  · intro s sku wid newQ
    rfl
  · intro s sku fromW toW qty
    unfold transfer_stock_session
    rcases transfer_stock s.staged sku fromW toW qty with e | L' <;> rfl
  · intro s rid rtype
    unfold confirm_stock_out_session
    by_cases hb : (confirm_stock_out s.staged rid rtype).2 = true
    · rw [if_pos hb]
      exact ⟨fun _ => rfl, fun hc => absurd hc (by simp)⟩
    · rw [if_neg hb]
      exact ⟨fun hc => absurd hc (by simp), fun _ => rfl⟩

theorem ledger_commit_discipline_witness :
    (reserve_stock_session c9Session 1 1 "R9" "order_creation" none).1.committed =
      c9Session.committed ∧
    ((confirm_stock_out_session c9Session "R9" "confirm").2 = false ∧
     confirm_stock_out_session c9Session "R9" "confirm" = (c9Session, false)) :=
  ⟨ledger_commit_discipline.1 c9Session 1 1 "R9" "order_creation" none,
   ⟨by decide,
    (ledger_commit_discipline.2.2.2.2.2.2 c9Session "R9" "confirm").2
      (by decide)⟩⟩

/-! ## Orders and cancellation (OrderService) -/

/-- `OrderStatusEnum`. -/
inductive OrderStatus where
  | pending_payment
  | processing
  | shipped
  | delivered
  | completed
  | cancelled
  | refunded
deriving DecidableEq, Repr

/-- The order columns cancellation reads and writes. -/
structure OrderRow where
  order_sn : String
  user_id : Nat
  status : OrderStatus
deriving DecidableEq, Repr

/-- Relational state seen by `OrderService.cancel_order`. -/
structure SysState where
  orders : List OrderRow
  ledger : Ledger
deriving DecidableEq, Repr

/-- The exceptions `cancel_order` can raise: the two `ValueError` rejections
of its own validation, and the Python `TypeError` raised at step 4, where the
source calls `release_reserved_stock` with the keyword argument
`original_reference_type` although the function's parameter is named
`original_reference_types` (and `new_reference_type` alone cannot satisfy
it), so the call never binds. -/
inductive CancelError where
  | orderNotFound
  | invalidStatus
  | callTypeError
deriving DecidableEq, Repr

/-- `OrderService.cancel_order`: lock and load the order row (reject when
absent), require PENDING_PAYMENT (reject otherwise), then call
`release_reserved_stock(db, reference_id=order_sn,
original_reference_type="order_creation", new_reference_type=
"order_cancellation", ...)`.  That call raises `TypeError` — the function
has no parameter `original_reference_type` — before any ledger row is
touched, the nested transaction exits with the exception, and nothing is
written.  The status update to CANCELLED on the final line is never
reached. -/
def cancel_order (st : SysState) (sn : String) : Except CancelError SysState :=
  match st.orders.find? (fun o => decide (o.order_sn = sn)) with
  | none => .error .orderNotFound
  | some o =>
    if o.status ≠ OrderStatus.pending_payment then .error .invalidStatus
    else .error .callTypeError

/-- Transaction semantics around `cancel_order`: an exception rolls the
nested transaction back, leaving the state unchanged. -/
def runCancel (st : SysState) (sn : String) : SysState :=
  match cancel_order st sn with
  | .ok st' => st'
  | .error _ => st

/-- A pending order "SN1" with 3 units reserved under its number. -/
def c5State : SysState :=
  ⟨[⟨"SN1", 1, .pending_payment⟩],
   ⟨[⟨1, 7, 1, 10, 3, 10⟩],
    [⟨1, .reserve, 3, some "SN1", some "order_creation"⟩]⟩⟩

/-- A state whose only order is already CANCELLED. -/
def c5Cancelled : SysState :=
  ⟨[⟨"SN2", 1, .cancelled⟩],
   ⟨[⟨1, 7, 1, 10, 3, 10⟩],
    [⟨1, .reserve, 3, some "SN2", some "order_creation"⟩]⟩⟩

/-- C5: cancelling a PENDING_PAYMENT order raises `TypeError` (the
`release_reserved_stock` call site passes the keyword
`original_reference_type`, which the function does not accept), so the
transaction rolls back: the order stays PENDING_PAYMENT and the ledger is
untouched — the claimed release-and-cancel never happens.  Cancelling a
non-pending (e.g. already CANCELLED) order is rejected with a `ValueError`
and also changes nothing. -/
theorem cancel_order_type_error :
    cancel_order c5State "SN1" = .error .callTypeError ∧
    runCancel c5State "SN1" = c5State ∧
    cancel_order c5Cancelled "SN2" = .error .invalidStatus ∧
    runCancel c5Cancelled "SN2" = c5Cancelled := by
  refine ⟨by decide, by decide, by decide, by decide⟩

/-! ## Sequences of ledger operations (for the reserved-quantity invariant) -/

/-- One invocation of a mutating Stock Ledger operation. -/
inductive LedgerOp where
  | opStockIn (sku wid : Nat) (qty : Int) (rid rtype : Option String)
  | opReserve (sku : Nat) (qty : Int) (rid rtype : String) (w : Option Nat)
  | opRelease (rid : String) (types : List String) (newType : String)
  | opCommit (sn : String)
  | opConfirm (rid rtype : String)
  | opAdjust (sku wid : Nat) (newQ : Int)
  | opTransfer (sku fromW toW : Nat) (qty : Int)
deriving DecidableEq, Repr

/-- Apply one operation; an operation that raises leaves the durable ledger
unchanged (its transaction is rolled back). -/
def LedgerOp.apply (L : Ledger) : LedgerOp → Ledger
  | .opStockIn sku wid qty rid rtype => stock_in L sku wid qty rid rtype
  | .opReserve sku qty rid rtype w =>
    match reserve_stock L sku qty rid rtype w with
    | .ok L' => L'
    | .error _ => L
  | .opRelease rid types newType =>
    match release_reserved_stock L rid types newType with
    | .ok L' => L'
    | .error _ => L
  | .opCommit sn => commit_reserved_stock L sn
  | .opConfirm rid rtype => (confirm_stock_out L rid rtype).1
  | .opAdjust sku wid newQ => adjust_stock L sku wid newQ
  | .opTransfer sku fromW toW qty =>
    match transfer_stock L sku fromW toW qty with
    | .ok L' => L'
    | .error _ => L

/-- A finite sequence of ledger operations, applied left to right. -/
def applyOps (L : Ledger) (ops : List LedgerOp) : Ledger :=
  ops.foldl LedgerOp.apply L

/-- A reference id is settled once a RELEASE or STOCK_OUT transaction
carries it (exactly the transactions appended by release / commit /
confirm). -/
def settledRid (txs : List InvTx) (rid : String) : Bool :=
  txs.any (fun tx => decide (tx.reference_id = some rid) &&
    (decide (tx.transaction_type = InvTxType.release) ||
     decide (tx.transaction_type = InvTxType.stock_out)))

/-- Whether a transaction is a still-outstanding RESERVE, judged against
the full log `all`. -/
def liveRes (all : List InvTx) (tx : InvTx) : Bool :=
  decide (tx.transaction_type = InvTxType.reserve) &&
  (match tx.reference_id with
   | some r => !(settledRid all r)
   | none => false)

/-- The contribution of one transaction to an item's outstanding reserved
amount: a live RESERVE charged to the item contributes its quantity. -/
def liveAmt (all : List InvTx) (i : Nat) (tx : InvTx) : Int :=
  if decide (tx.inventory_item_id = i) && liveRes all tx then tx.quantity else 0

/-- Outstanding reserved amount of item `i` over a scanned sublog, judged
against the full log `all`. -/
def outstandingOver (all scan : List InvTx) (i : Nat) : Int :=
  (scan.map (liveAmt all i)).sum

/-- Outstanding reserved amount of item `i`: the sum of the quantities of
the RESERVE transactions charged to it whose reference is not settled. -/
def outstanding (txs : List InvTx) (i : Nat) : Int :=
  outstandingOver txs txs i

theorem settledRid_append (a b : List InvTx) (r : String) :
    settledRid (a ++ b) r = (settledRid a r || settledRid b r) := by
  simp [settledRid, List.any_append]

theorem settledRid_nonsettle (b : List InvTx) (r : String)
    (h : ∀ tx ∈ b, tx.transaction_type ≠ InvTxType.release ∧
      tx.transaction_type ≠ InvTxType.stock_out) :
    settledRid b r = false := by
  rw [settledRid, List.any_eq_false]
  intro tx htx
  obtain ⟨h1, h2⟩ := h tx htx
  simp [h1, h2]

theorem settledRid_otherRid (b : List InvTx) (r rid : String)
    (hall : ∀ tx ∈ b, tx.reference_id = some rid) (hne : r ≠ rid) :
    settledRid b r = false := by
  rw [settledRid, List.any_eq_false]
  intro tx htx
  rw [hall tx htx]
  have : rid ≠ r := fun h => hne h.symm
  simp [this]

theorem settledRid_mem (b : List InvTx) (r : String) (tx : InvTx)
    (htx : tx ∈ b) (hrid : tx.reference_id = some r)
    (htype : tx.transaction_type = InvTxType.release ∨
      tx.transaction_type = InvTxType.stock_out) :
    settledRid b r = true := by
  rw [settledRid, List.any_eq_true]
  refine ⟨tx, htx, ?_⟩
  rcases htype with h | h <;> simp [hrid, h]

theorem outOver_append (all s t : List InvTx) (i : Nat) :
    outstandingOver all (s ++ t) i =
      outstandingOver all s i + outstandingOver all t i := by
  simp [outstandingOver]

theorem outOver_congr (all all' scan : List InvTx) (i : Nat)
    (h : ∀ tx ∈ scan, liveAmt all i tx = liveAmt all' i tx) :
    outstandingOver all scan i = outstandingOver all' scan i := by
  unfold outstandingOver
  rw [List.map_congr_left h]

theorem outOver_nonreserve (all scan : List InvTx) (i : Nat)
    (h : ∀ tx ∈ scan, tx.transaction_type ≠ InvTxType.reserve) :
    outstandingOver all scan i = 0 := by
  unfold outstandingOver
  have h0 : ∀ tx ∈ scan, liveAmt all i tx = 0 := by
    intro tx htx
    unfold liveAmt liveRes
    simp [h tx htx]
  rw [List.map_congr_left h0]
  simp

theorem outOver_nonneg (all scan : List InvTx) (i : Nat)
    (h : ∀ tx ∈ scan, tx.transaction_type = InvTxType.reserve →
      0 < tx.quantity) :
    0 ≤ outstandingOver all scan i := by
  unfold outstandingOver
  apply List.sum_nonneg
  intro x hx
  obtain ⟨tx, htx, hval⟩ := List.mem_map.mp hx
  subst hval
  unfold liveAmt liveRes
  by_cases hr : tx.transaction_type = InvTxType.reserve
  · by_cases hcond : (decide (tx.inventory_item_id = i) &&
        (decide (tx.transaction_type = InvTxType.reserve) &&
          match tx.reference_id with
          | some r => !settledRid all r
          | none => false)) = true
    · rw [if_pos hcond]
      exact le_of_lt (h tx htx hr)
    · rw [if_neg hcond]
  · simp [hr]

theorem liveAmt_stable (all all' : List InvTx) (i : Nat) (tx : InvTx)
    (h : ∀ r, settledRid all' r = settledRid all r) :
    liveAmt all' i tx = liveAmt all i tx := by
  unfold liveAmt liveRes
  rcases href : tx.reference_id with _ | r <;> dsimp only
  rw [h r]

theorem liveAmt_settle (all all' : List InvTx) (i : Nat) (rid : String)
    (tx : InvTx)
    (hother : ∀ r, r ≠ rid → settledRid all' r = settledRid all r)
    (hbefore : settledRid all rid = false)
    (hafter : settledRid all' rid = true) :
    liveAmt all' i tx = liveAmt all i tx -
      (if decide (tx.inventory_item_id = i) &&
          decide (tx.transaction_type = InvTxType.reserve) &&
          decide (tx.reference_id = some rid) then tx.quantity else 0) := by
  unfold liveAmt liveRes
  rcases href : tx.reference_id with _ | r <;> dsimp only
  · simp
  · by_cases hr : r = rid
    · subst hr
      rw [hafter, hbefore]
      by_cases hA : tx.inventory_item_id = i <;>
        by_cases hB : tx.transaction_type = InvTxType.reserve <;>
          simp [hA, hB]
    · rw [hother r hr]
      simp [hr]

theorem ledger_sum_map_sub (l : List InvTx) (f g : InvTx → Int) :
    (l.map (fun x => f x - g x)).sum = (l.map f).sum - (l.map g).sum := by
  induction l with
  | nil => simp
  | cons x xs ih =>
    simp only [List.map_cons, List.sum_cons, ih]
    ring

/-- The summed quantity of the RESERVE transactions of one reference id
charged to one item row. -/
def ridResSum (txs : List InvTx) (rid : String) (i : Nat) : Int :=
  (txs.map (fun tx => if decide (tx.inventory_item_id = i) &&
      decide (tx.transaction_type = InvTxType.reserve) &&
      decide (tx.reference_id = some rid) then tx.quantity else 0)).sum

/-- Settling a reference (appending its RELEASE / STOCK_OUT transactions)
removes exactly that reference's RESERVE quantities from the outstanding
amount of every item. -/
theorem outstanding_settle (txs new : List InvTx) (rid : String) (i : Nat)
    (hbefore : settledRid txs rid = false)
    (hnewrid : ∀ tx ∈ new, tx.reference_id = some rid)
    (hnewtype : ∀ tx ∈ new, tx.transaction_type = InvTxType.release ∨
      tx.transaction_type = InvTxType.stock_out)
    (hne : new ≠ []) :
    outstanding (txs ++ new) i = outstanding txs i - ridResSum txs rid i := by
  have hafter : settledRid (txs ++ new) rid = true := by
    obtain ⟨tx, htx⟩ := List.exists_mem_of_ne_nil new hne
    exact settledRid_mem _ _ tx (List.mem_append_right _ htx) (hnewrid tx htx)
      (hnewtype tx htx)
  have hother : ∀ r, r ≠ rid →
      settledRid (txs ++ new) r = settledRid txs r := by
    intro r hr
    rw [settledRid_append, settledRid_otherRid new r rid hnewrid hr,
      Bool.or_false]
  unfold outstanding
  rw [outOver_append]
  have hnr : outstandingOver (txs ++ new) new i = 0 := by
    apply outOver_nonreserve
    intro tx htx
    rcases hnewtype tx htx with h | h <;> simp [h]
  rw [hnr, add_zero]
  have hpt : ∀ tx ∈ txs, liveAmt (txs ++ new) i tx =
      liveAmt txs i tx - (if decide (tx.inventory_item_id = i) &&
        decide (tx.transaction_type = InvTxType.reserve) &&
        decide (tx.reference_id = some rid) then tx.quantity else 0) :=
    fun tx _ => liveAmt_settle txs (txs ++ new) i rid tx hother hbefore hafter
  unfold outstandingOver
  rw [List.map_congr_left hpt, ledger_sum_map_sub]
  rfl

/-- Appending transactions that neither reserve nor settle (STOCK_IN,
ADJUST, TRANSFER_IN, TRANSFER_OUT) leaves every outstanding amount
unchanged. -/
theorem outstanding_append_inert (txs new : List InvTx) (i : Nat)
    (hns : ∀ tx ∈ new, tx.transaction_type ≠ InvTxType.release ∧
      tx.transaction_type ≠ InvTxType.stock_out)
    (hnr : ∀ tx ∈ new, tx.transaction_type ≠ InvTxType.reserve) :
    outstanding (txs ++ new) i = outstanding txs i := by
  have hstab : ∀ r, settledRid (txs ++ new) r = settledRid txs r := by
    intro r
    rw [settledRid_append, settledRid_nonsettle new r hns, Bool.or_false]
  unfold outstanding
  rw [outOver_append, outOver_nonreserve _ _ _ hnr, add_zero]
  exact outOver_congr _ _ _ _
    (fun tx _ => liveAmt_stable txs (txs ++ new) i tx hstab)

/-- Appending one RESERVE transaction with an unsettled reference id adds
its quantity to its item's outstanding amount. -/
theorem outstanding_append_reserve (txs : List InvTx) (tx0 : InvTx) (i : Nat)
    (hres : tx0.transaction_type = InvTxType.reserve)
    (r0 : String) (hr0 : tx0.reference_id = some r0)
    (hsr0 : settledRid txs r0 = false) :
    outstanding (txs ++ [tx0]) i =
      outstanding txs i +
        (if tx0.inventory_item_id = i then tx0.quantity else 0) := by
  have hstab : ∀ r, settledRid (txs ++ [tx0]) r = settledRid txs r := by
    intro r
    rw [settledRid_append, settledRid_nonsettle [tx0] r ?_, Bool.or_false]
    intro tx htx
    rw [List.mem_singleton] at htx
    subst htx
    simp [hres]
  have h2 : outstandingOver (txs ++ [tx0]) [tx0] i =
      (if tx0.inventory_item_id = i then tx0.quantity else 0) := by
    unfold outstandingOver
    simp only [List.map_cons, List.map_nil, List.sum_cons, List.sum_nil,
      add_zero]
    unfold liveAmt liveRes
    rw [hr0]
    dsimp only
    rw [hstab r0, hsr0]
    by_cases hA : tx0.inventory_item_id = i <;> simp [hA, hres]
  unfold outstanding
  rw [outOver_append, h2]
  congr 1
  exact outOver_congr _ _ _ _
    (fun tx _ => liveAmt_stable txs (txs ++ [tx0]) i tx hstab)

theorem sum_filter_indicator (l : List InvTx) (p : InvTx → Bool)
    (f : InvTx → Int) :
    ((l.filter p).map f).sum = (l.map (fun tx => if p tx then f tx else 0)).sum := by
  induction l with
  | nil => rfl
  | cons x xs ih =>
    by_cases h : p x = true <;> simp [List.filter_cons, h, ih]

/-- The reference type of a transaction is one of the given original
types. -/
def refTypeIn (tx : InvTx) (types : List String) : Prop :=
  tx.reference_type ∈ types.map (fun t => (some t : Option String))

instance (tx : InvTx) (types : List String) : Decidable (refTypeIn tx types) :=
  inferInstanceAs (Decidable
    (tx.reference_type ∈ types.map (fun t => (some t : Option String))))

theorem refTypeIn_match (tx : InvTx) (types : List String) :
    (match tx.reference_type with
     | some t => decide (t ∈ types)
     | none => false) = true ↔ refTypeIn tx types := by
  unfold refTypeIn
  rcases h : tx.reference_type with _ | t <;> simp

/-- Under full type coverage the transactions matched by a release are
exactly the reference's RESERVE transactions, so their per-item sums
agree. -/
theorem release_matched_sum_eq (txs : List InvTx) (rid : String)
    (types : List String) (i : Nat)
    (hcov : ∀ tx ∈ txs, tx.reference_id = some rid →
      tx.transaction_type = InvTxType.reserve → refTypeIn tx types) :
    itemMatchSum (txs.filter (matchesRelease rid types)) i =
      ridResSum txs rid i := by
  unfold itemMatchSum ridResSum
  rw [List.filter_filter, sum_filter_indicator]
  apply congrArg List.sum
  apply List.map_congr_left
  intro tx htx
  by_cases hI : tx.inventory_item_id = i <;>
    by_cases hR : tx.transaction_type = InvTxType.reserve <;>
      by_cases hRid : tx.reference_id = some rid
  · have htype := (refTypeIn_match tx types).mpr (hcov tx htx hRid hR)
    simp [matchesRelease, hI, hR, hRid, htype]
  · simp [matchesRelease, hI, hR, hRid]
  · simp [matchesRelease, hI, hR, hRid]
  · simp [matchesRelease, hI, hR, hRid]
  · simp [matchesRelease, hI, hR, hRid]
  · simp [matchesRelease, hI, hR, hRid]
  · simp [matchesRelease, hI, hR, hRid]
  · simp [matchesRelease, hI, hR, hRid]

/-- Same bridging for the commit / confirm paths, which match one exact
reference type. -/
theorem commitlike_matched_sum_eq (txs : List InvTx) (sn tval : String)
    (i : Nat)
    (hcov : ∀ tx ∈ txs, tx.reference_id = some sn →
      tx.transaction_type = InvTxType.reserve →
      tx.reference_type = some tval) :
    itemMatchSum (txs.filter (fun tx =>
      decide (tx.reference_id = some sn) &&
      decide (tx.reference_type = some tval) &&
      decide (tx.transaction_type = InvTxType.reserve))) i =
      ridResSum txs sn i := by
  unfold itemMatchSum ridResSum
  rw [List.filter_filter, sum_filter_indicator]
  apply congrArg List.sum
  apply List.map_congr_left
  intro tx htx
  by_cases hI : tx.inventory_item_id = i <;>
    by_cases hR : tx.transaction_type = InvTxType.reserve <;>
      by_cases hRid : tx.reference_id = some sn
  · have htype := hcov tx htx hRid hR
    simp [hI, hR, hRid, htype]
  · simp [hI, hR, hRid]
  · simp [hI, hR, hRid]
  · simp [hI, hR, hRid]
  · simp [hI, hR, hRid]
  · simp [hI, hR, hRid]
  · simp [hI, hR, hRid]
  · simp [hI, hR, hRid]

theorem ridResSum_nonneg (txs : List InvTx) (rid : String) (i : Nat)
    (h : ∀ tx ∈ txs, tx.transaction_type = InvTxType.reserve →
      0 < tx.quantity) :
    0 ≤ ridResSum txs rid i := by
  unfold ridResSum
  apply List.sum_nonneg
  intro x hx
  obtain ⟨tx, htx, hval⟩ := List.mem_map.mp hx
  subst hval
  by_cases hR : tx.transaction_type = InvTxType.reserve
  · by_cases hc : (decide (tx.inventory_item_id = i) &&
        decide (tx.transaction_type = InvTxType.reserve) &&
        decide (tx.reference_id = some rid)) = true
    · rw [if_pos hc]
      exact le_of_lt (h tx htx hR)
    · rw [if_neg hc]
  · simp [hR]

/-- Side conditions under which a ledger operation is issued by the
system's workflows: positive quantities (the request schemas validate
`gt=0`, adjustment `ge=0`), each business reference settled at most once
and not re-used afterwards, releases listing all of the reference's
original types, commits / confirms applying only to references whose
reservations carry the matched reference type, and adjustments not setting
a quantity below the row's reserved amount. -/
def opOk (L : Ledger) : LedgerOp → Prop
  | .opStockIn _ _ qty _ _ => 0 < qty
  | .opReserve _ qty rid _ _ => 0 < qty ∧ settledRid L.txs rid = false
  | .opRelease rid types _ =>
      settledRid L.txs rid = false ∧
      ∀ tx ∈ L.txs, tx.reference_id = some rid →
        tx.transaction_type = InvTxType.reserve → refTypeIn tx types
  | .opCommit sn =>
      settledRid L.txs sn = false ∧
      ∀ tx ∈ L.txs, tx.reference_id = some sn →
        tx.transaction_type = InvTxType.reserve →
        tx.reference_type = some "order_creation"
  | .opConfirm rid _ =>
      settledRid L.txs rid = false ∧
      ∀ tx ∈ L.txs, tx.reference_id = some rid →
        tx.transaction_type = InvTxType.reserve →
        tx.reference_type = some "reserve"
  | .opAdjust sku wid newQ =>
      0 ≤ newQ ∧
      ∀ it ∈ L.items, it.sku_id = sku → it.warehouse_id = wid →
        it.reserved_quantity ≤ newQ
  | .opTransfer _ _ _ qty => 0 < qty

instance opOkDecidable (L : Ledger) (op : LedgerOp) : Decidable (opOk L op) := by
  cases op <;> (unfold opOk; infer_instance)

/-- A well-formed run: every operation satisfies its side conditions in the
state where it executes. -/
def okRun (L : Ledger) : List LedgerOp → Prop
  | [] => True
  | op :: rest => opOk L op ∧ okRun (op.apply L) rest

def okRunDecidableAux (L : Ledger) :
    (ops : List LedgerOp) → Decidable (okRun L ops)
  | [] => inferInstanceAs (Decidable True)
  | op :: rest =>
    have : Decidable (okRun (op.apply L) rest) :=
      okRunDecidableAux (op.apply L) rest
    inferInstanceAs (Decidable (opOk L op ∧ okRun (op.apply L) rest))

instance (L : Ledger) (ops : List LedgerOp) : Decidable (okRun L ops) :=
  okRunDecidableAux L ops

/-- The ledger invariant: row ids and (SKU, warehouse) pairs are unique,
every row's reserved quantity equals its outstanding RESERVE amount and
satisfies `0 ≤ reserved ≤ quantity`, and every RESERVE transaction has a
positive quantity and references an existing row. -/
def LedgerInv (L : Ledger) : Prop :=
  (L.items.map (fun it => it.id)).Nodup ∧
  (L.items.map (fun it => (it.sku_id, it.warehouse_id))).Nodup ∧
  (∀ it ∈ L.items, it.reserved_quantity = outstanding L.txs it.id ∧
     0 ≤ it.reserved_quantity ∧ it.reserved_quantity ≤ it.quantity) ∧
  (∀ tx ∈ L.txs, tx.transaction_type = InvTxType.reserve →
     0 < tx.quantity ∧ tx.inventory_item_id ∈ L.items.map (fun it => it.id))

instance (L : Ledger) : Decidable (LedgerInv L) := by
  unfold LedgerInv
  infer_instance

theorem items_map_ids (items : List InvItem) (f : InvItem → InvItem)
    (h : ∀ it, (f it).id = it.id) :
    (items.map f).map (fun it => it.id) = items.map (fun it => it.id) := by
  rw [List.map_map]
  exact List.map_congr_left (fun it _ => h it)

theorem items_map_pairs (items : List InvItem) (f : InvItem → InvItem)
    (h : ∀ it, (f it).sku_id = it.sku_id ∧ (f it).warehouse_id = it.warehouse_id) :
    (items.map f).map (fun it => (it.sku_id, it.warehouse_id)) =
      items.map (fun it => (it.sku_id, it.warehouse_id)) := by
  rw [List.map_map]
  apply List.map_congr_left
  intro it _
  simp only [Function.comp]
  rw [(h it).1, (h it).2]

theorem le_foldr_max (l : List Nat) (x : Nat) (hx : x ∈ l) :
    x ≤ l.foldr max 0 := by
  induction l with
  | nil => simp at hx
  | cons a t ih =>
    rcases List.mem_cons.mp hx with h | h
    · subst h
      simp only [List.foldr]
      exact Nat.le_max_left _ _
    · simp only [List.foldr]
      exact Nat.le_trans (ih h) (Nat.le_max_right _ _)

theorem nextId_fresh (L : Ledger) :
    nextId L ∉ L.items.map (fun it => it.id) := by
  intro hmem
  have h := le_foldr_max _ _ hmem
  unfold nextId at h
  omega

theorem outstanding_eq_zero_of_no_reserve (txs : List InvTx) (i : Nat)
    (h : ∀ tx ∈ txs, tx.transaction_type = InvTxType.reserve →
      tx.inventory_item_id ≠ i) :
    outstanding txs i = 0 := by
  unfold outstanding outstandingOver
  have h0 : ∀ tx ∈ txs, liveAmt txs i tx = 0 := by
    intro tx htx
    unfold liveAmt liveRes
    by_cases hR : tx.transaction_type = InvTxType.reserve
    · simp [h tx htx hR]
    · simp [hR]
  rw [List.map_congr_left h0]
  simp

theorem filter_pair_singleton (L : Ledger) (sku wid : Nat) (item : InvItem)
    (hnodup : (L.items.map (fun it => (it.sku_id, it.warehouse_id))).Nodup)
    (h : (L.items.filter (fun it =>
      decide (it.sku_id = sku) && decide (it.warehouse_id = wid))).head? =
      some item) :
    L.items.filter (fun it =>
      decide (it.sku_id = sku) && decide (it.warehouse_id = wid)) = [item] := by
  have hcons := List.eq_cons_of_mem_head? (x := item) (by rw [h]; rfl)
  rcases ht : (L.items.filter (fun it =>
      decide (it.sku_id = sku) && decide (it.warehouse_id = wid))).tail with
    _ | ⟨b, t⟩
  · rw [hcons, ht]
  · exfalso
    have hsub := List.filter_sublist (p := fun it =>
      decide (it.sku_id = sku) && decide (it.warehouse_id = wid)) L.items
    have hnod : ((L.items.filter (fun it =>
        decide (it.sku_id = sku) && decide (it.warehouse_id = wid))).map
        (fun it => (it.sku_id, it.warehouse_id))).Nodup :=
      (hsub.map (fun it => (it.sku_id, it.warehouse_id))).nodup hnodup
    have hb : b ∈ L.items.filter (fun it =>
        decide (it.sku_id = sku) && decide (it.warehouse_id = wid)) := by
      rw [hcons, ht]
      exact List.mem_cons_of_mem _ (List.mem_cons_self _ _)
    have hitem : item ∈ L.items.filter (fun it =>
        decide (it.sku_id = sku) && decide (it.warehouse_id = wid)) := by
      rw [hcons]
      exact List.mem_cons_self _ _
    have hpi := (List.mem_filter.mp hitem).2
    have hpb := (List.mem_filter.mp hb).2
    simp only [Bool.and_eq_true, decide_eq_true_eq] at hpi hpb
    rw [hcons, ht] at hnod
    simp only [List.map_cons, List.nodup_cons, List.mem_cons] at hnod
    exact hnod.1 (Or.inl (by rw [hpi.1, hpi.2, hpb.1, hpb.2]))

theorem availableSum_single (L : Ledger) (sku wid : Nat) (item : InvItem)
    (hfl : L.items.filter (fun it =>
      decide (it.sku_id = sku) && decide (it.warehouse_id = wid)) = [item]) :
    availableSum L sku (some wid) = item.quantity - item.reserved_quantity := by
  unfold availableSum
  dsimp only
  rw [hfl]
  simp

theorem getOrCreate_found (L : Ledger) (sku wid : Nat) (item : InvItem)
    (h : (L.items.filter (fun it =>
      decide (it.sku_id = sku) && decide (it.warehouse_id = wid))).head? =
      some item) :
    getOrCreateItem L sku wid = (item, L) := by
  unfold getOrCreateItem
  rw [h]

theorem getOrCreate_new (L : Ledger) (sku wid : Nat)
    (h : (L.items.filter (fun it =>
      decide (it.sku_id = sku) && decide (it.warehouse_id = wid))).head? =
      none) :
    getOrCreateItem L sku wid = (⟨nextId L, sku, wid, 0, 0, 10⟩,
      { L with items := L.items ++ [⟨nextId L, sku, wid, 0, 0, 10⟩] }) := by
  unfold getOrCreateItem
  rw [h]

/-- Preservation of the invariant by a row-update map (id, SKU and
warehouse preserved) together with appended transactions. -/
theorem inv_update (L : Ledger) (f : InvItem → InvItem) (new : List InvTx)
    (hid : ∀ it, (f it).id = it.id)
    (hsw : ∀ it, (f it).sku_id = it.sku_id ∧ (f it).warehouse_id = it.warehouse_id)
    (hInv : LedgerInv L)
    (hout : ∀ it ∈ L.items,
      (f it).reserved_quantity = outstanding (L.txs ++ new) it.id)
    (hbounds : ∀ it ∈ L.items, 0 ≤ (f it).reserved_quantity ∧
      (f it).reserved_quantity ≤ (f it).quantity)
    (hnew : ∀ tx ∈ new, tx.transaction_type = InvTxType.reserve →
      0 < tx.quantity ∧
      tx.inventory_item_id ∈ L.items.map (fun it => it.id)) :
    LedgerInv ⟨L.items.map f, L.txs ++ new⟩ := by
  obtain ⟨hids, hpairs, hitems, htxs⟩ := hInv
  refine ⟨?_, ?_, ?_, ?_⟩
  · rw [show (Ledger.mk (L.items.map f) (L.txs ++ new)).items = L.items.map f
      from rfl, items_map_ids _ f hid]
    exact hids
  · rw [show (Ledger.mk (L.items.map f) (L.txs ++ new)).items = L.items.map f
      from rfl, items_map_pairs _ f hsw]
    exact hpairs
  · intro it' hit'
    obtain ⟨it, hit, hv⟩ := List.mem_map.mp hit'
    subst hv
    refine ⟨?_, (hbounds it hit).1, (hbounds it hit).2⟩
    rw [hid it]
    exact hout it hit
  · intro tx htx hres
    rcases List.mem_append.mp htx with h | h
    · obtain ⟨hq, hmem⟩ := htxs tx h hres
      refine ⟨hq, ?_⟩
      rw [show (Ledger.mk (L.items.map f) (L.txs ++ new)).items = L.items.map f
        from rfl, items_map_ids _ f hid]
      exact hmem
    · obtain ⟨hq, hmem⟩ := hnew tx h hres
      refine ⟨hq, ?_⟩
      rw [show (Ledger.mk (L.items.map f) (L.txs ++ new)).items = L.items.map f
        from rfl, items_map_ids _ f hid]
      exact hmem

/-- Creating a fresh (SKU, warehouse) row with zero counters preserves the
invariant. -/
theorem inv_append_item (L : Ledger) (sku wid : Nat)
    (hInv : LedgerInv L)
    (hfresh : ∀ it ∈ L.items, ¬(it.sku_id = sku ∧ it.warehouse_id = wid)) :
    LedgerInv { L with
      items := L.items ++ [⟨nextId L, sku, wid, 0, 0, 10⟩] } := by
  obtain ⟨hids, hpairs, hitems, htxs⟩ := hInv
  have hfid := nextId_fresh L
  refine ⟨?_, ?_, ?_, ?_⟩
  · simp only [List.map_append, List.map_cons, List.map_nil]
    rw [List.nodup_append]
    refine ⟨hids, List.nodup_singleton _, ?_⟩
    intro x hx hx2
    rw [List.mem_singleton] at hx2
    subst hx2
    exact hfid hx
  · simp only [List.map_append, List.map_cons, List.map_nil]
    rw [List.nodup_append]
    refine ⟨hpairs, List.nodup_singleton _, ?_⟩
    intro x hx hx2
    rw [List.mem_singleton] at hx2
    subst hx2
    obtain ⟨it, hit, hpair⟩ := List.mem_map.mp hx
    have := Prod.mk.injEq .. ▸ hpair
    exact hfresh it hit ⟨(Prod.mk.injEq _ _ _ _ ▸ hpair).1,
      (Prod.mk.injEq _ _ _ _ ▸ hpair).2⟩
  · intro it' hit'
    rcases List.mem_append.mp hit' with h | h
    · exact hitems it' h
    · rw [List.mem_singleton] at h
      subst h
      refine ⟨?_, le_refl _, le_refl _⟩
      symm
      apply outstanding_eq_zero_of_no_reserve
      intro tx htx hres hi
      have hi' : tx.inventory_item_id = nextId L := hi
      exact hfid (hi' ▸ (htxs tx htx hres).2)
  · intro tx htx hres
    obtain ⟨hq, hmem⟩ := htxs tx htx hres
    refine ⟨hq, ?_⟩
    simp only [List.map_append]
    exact List.mem_append_left _ hmem

/-- Specialization of `inv_update`: the map touches only `quantity` and the
appended transactions are neither RESERVE nor settling. -/
theorem inv_update_qtyOnly (L : Ledger) (f : InvItem → InvItem)
    (new : List InvTx)
    (hid : ∀ it, (f it).id = it.id)
    (hsw : ∀ it, (f it).sku_id = it.sku_id ∧ (f it).warehouse_id = it.warehouse_id)
    (hres : ∀ it, (f it).reserved_quantity = it.reserved_quantity)
    (hq : ∀ it ∈ L.items, it.reserved_quantity ≤ (f it).quantity)
    (hInv : LedgerInv L)
    (hinert : ∀ tx ∈ new, tx.transaction_type ≠ InvTxType.reserve ∧
      tx.transaction_type ≠ InvTxType.release ∧
      tx.transaction_type ≠ InvTxType.stock_out) :
    LedgerInv ⟨L.items.map f, L.txs ++ new⟩ := by
  refine inv_update L f new hid hsw hInv ?_ ?_ ?_
  · intro it hit
    rw [hres it, (hInv.2.2.1 it hit).1,
      outstanding_append_inert L.txs new it.id
        (fun tx htx => ⟨(hinert tx htx).2.1, (hinert tx htx).2.2⟩)
        (fun tx htx => (hinert tx htx).1)]
  · intro it hit
    rw [hres it]
    exact ⟨(hInv.2.2.1 it hit).2.1, hq it hit⟩
  · intro tx htx hr
    exact absurd hr (hinert tx htx).1

theorem inv_step_stockIn (L : Ledger) (sku wid : Nat) (qty : Int)
    (rid rtype : Option String) (hInv : LedgerInv L) (hq : 0 < qty) :
    LedgerInv (stock_in L sku wid qty rid rtype) := by
  unfold stock_in
  rcases hh : (L.items.filter (fun it =>
      decide (it.sku_id = sku) && decide (it.warehouse_id = wid))).head? with
    _ | item
  · rw [getOrCreate_new L sku wid hh]
    dsimp only
    have hfresh : ∀ it ∈ L.items,
        ¬(it.sku_id = sku ∧ it.warehouse_id = wid) := by
      have hnil : L.items.filter (fun it =>
          decide (it.sku_id = sku) && decide (it.warehouse_id = wid)) = [] :=
        List.head?_eq_none_iff.mp hh
      intro it hit hcon
      have hmem : it ∈ L.items.filter (fun it =>
          decide (it.sku_id = sku) && decide (it.warehouse_id = wid)) :=
        List.mem_filter.mpr ⟨hit, by simp [hcon.1, hcon.2]⟩
      rw [hnil] at hmem
      simp at hmem
    have hInv2 := inv_append_item L sku wid hInv hfresh
    refine inv_update_qtyOnly _ _ _ ?_ ?_ ?_ ?_ hInv2 ?_
    · intro it
      by_cases h : it.id = nextId L <;> simp [h]
    · intro it
      by_cases h : it.id = nextId L <;> simp [h]
    · intro it
      by_cases h : it.id = nextId L <;> simp [h]
    · intro it hit
      have hb := hInv2.2.2.1 it hit
      by_cases h : it.id = nextId L <;> simp [h]
      · omega
      · omega
    · intro tx htx
      rw [List.mem_singleton] at htx
      subst htx
      refine ⟨?_, ?_, ?_⟩ <;> simp
  · rw [getOrCreate_found L sku wid item hh]
    dsimp only
    refine inv_update_qtyOnly _ _ _ ?_ ?_ ?_ ?_ hInv ?_
    · intro it
      by_cases h : it.id = item.id <;> simp [h]
    · intro it
      by_cases h : it.id = item.id <;> simp [h]
    · intro it
      by_cases h : it.id = item.id <;> simp [h]
    · intro it hit
      have hb := hInv.2.2.1 it hit
      by_cases h : it.id = item.id <;> simp [h]
      · omega
      · omega
    · intro tx htx
      rw [List.mem_singleton] at htx
      subst htx
      refine ⟨?_, ?_, ?_⟩ <;> simp

theorem inv_step_adjust (L : Ledger) (sku wid : Nat) (newQ : Int)
    (hInv : LedgerInv L) (hq : 0 ≤ newQ)
    (hcap : ∀ it ∈ L.items, it.sku_id = sku → it.warehouse_id = wid →
      it.reserved_quantity ≤ newQ) :
    LedgerInv (adjust_stock L sku wid newQ) := by
  unfold adjust_stock
  rcases hh : (L.items.filter (fun it =>
      decide (it.sku_id = sku) && decide (it.warehouse_id = wid))).head? with
    _ | item
  · rw [getOrCreate_new L sku wid hh]
    dsimp only
    have hfresh : ∀ it ∈ L.items,
        ¬(it.sku_id = sku ∧ it.warehouse_id = wid) := by
      have hnil : L.items.filter (fun it =>
          decide (it.sku_id = sku) && decide (it.warehouse_id = wid)) = [] :=
        List.head?_eq_none_iff.mp hh
      intro it hit hcon
      have hmem : it ∈ L.items.filter (fun it =>
          decide (it.sku_id = sku) && decide (it.warehouse_id = wid)) :=
        List.mem_filter.mpr ⟨hit, by simp [hcon.1, hcon.2]⟩
      rw [hnil] at hmem
      simp at hmem
    have hInv2 := inv_append_item L sku wid hInv hfresh
    refine inv_update_qtyOnly _ _ _ ?_ ?_ ?_ ?_ hInv2 ?_
    · intro it
      by_cases h : it.id = nextId L <;> simp [h]
    · intro it
      by_cases h : it.id = nextId L <;> simp [h]
    · intro it
      by_cases h : it.id = nextId L <;> simp [h]
    · intro it hit
      rcases List.mem_append.mp hit with hold | hnew
      · by_cases h : it.id = nextId L
        · exact absurd (h ▸ List.mem_map_of_mem (fun it => it.id) hold)
            (nextId_fresh L)
        · simp [h]
          exact (hInv.2.2.1 it hold).2.2
      · rw [List.mem_singleton] at hnew
        subst hnew
        simp [hq]
    · intro tx htx
      rw [List.mem_singleton] at htx
      subst htx
      refine ⟨?_, ?_, ?_⟩ <;> simp
  · rw [getOrCreate_found L sku wid item hh]
    dsimp only
    have hpred := (List.mem_filter.mp (by
      have hcons := List.eq_cons_of_mem_head? (x := item) (by rw [hh]; rfl)
      rw [hcons]
      exact List.mem_cons_self _ _)).2
    simp only [Bool.and_eq_true, decide_eq_true_eq] at hpred
    have hmemL : item ∈ L.items := by
      have hcons := List.eq_cons_of_mem_head? (x := item) (by rw [hh]; rfl)
      have : item ∈ L.items.filter (fun it =>
          decide (it.sku_id = sku) && decide (it.warehouse_id = wid)) := by
        rw [hcons]
        exact List.mem_cons_self _ _
      exact List.mem_of_mem_filter this
    refine inv_update_qtyOnly _ _ _ ?_ ?_ ?_ ?_ hInv ?_
    · intro it
      by_cases h : it.id = item.id <;> simp [h]
    · intro it
      by_cases h : it.id = item.id <;> simp [h]
    · intro it
      by_cases h : it.id = item.id <;> simp [h]
    · intro it hit
      by_cases h : it.id = item.id
      · simp only [h, if_pos rfl]
        have hsame : it = item :=
          List.inj_on_of_nodup_map hInv.1 hit hmemL h
        subst hsame
        exact hcap it hit hpred.1 hpred.2
      · simp [h]
        exact (hInv.2.2.1 it hit).2.2
    · intro tx htx
      rw [List.mem_singleton] at htx
      subst htx
      refine ⟨?_, ?_, ?_⟩ <;> simp

theorem inv_reserve_ok (L L' : Ledger) (sku : Nat) (qty : Int)
    (rid rtype : String) (w : Option Nat)
    (hInv : LedgerInv L) (hq : 0 < qty)
    (hsr : settledRid L.txs rid = false)
    (h : reserve_stock L sku qty rid rtype w = .ok L') :
    LedgerInv L' := by
  unfold reserve_stock at h
  by_cases hchk : check_stock_availability L sku qty w = false
  · rw [if_pos hchk] at h
    exact Except.noConfusion h
  · rw [if_neg hchk] at h
    have hchk' : check_stock_availability L sku qty w = true :=
      eq_true_of_ne_false hchk
    have havail : qty ≤ availableSum L sku w := by
      unfold check_stock_availability at hchk'
      exact of_decide_eq_true hchk'
    rcases w with _ | wid
    · dsimp only at h
      rcases hm : minByWarehouse (L.items.filter (fun it =>
          decide (it.sku_id = sku) &&
          decide (qty ≤ it.quantity - it.reserved_quantity))) with _ | item
      · rw [hm] at h
        exact Except.noConfusion h
      · rw [hm] at h
        dsimp only at h
        injection h with h'
        subst h'
        have hmemf := minByWarehouse_mem _ item hm
        have hmemL : item ∈ L.items := List.mem_of_mem_filter hmemf
        have hpred := (List.mem_filter.mp hmemf).2
        simp only [Bool.and_eq_true, decide_eq_true_eq] at hpred
        refine inv_update L _ _ ?_ ?_ hInv ?_ ?_ ?_
        · intro it
          by_cases hI : it.id = item.id <;> simp [hI]
        · intro it
          by_cases hI : it.id = item.id <;> simp [hI]
        · intro it hit
          rw [outstanding_append_reserve L.txs _ it.id rfl rid rfl hsr]
          dsimp only
          by_cases hI : it.id = item.id
          · rw [if_pos hI, if_pos hI.symm, (hInv.2.2.1 it hit).1]
          · rw [if_neg hI, if_neg (fun hk => hI hk.symm), add_zero,
              (hInv.2.2.1 it hit).1]
        · intro it hit
          by_cases hI : it.id = item.id
          · rw [if_pos hI]
            dsimp only
            have hsame : it = item :=
              List.inj_on_of_nodup_map hInv.1 hit hmemL hI
            subst hsame
            have hb := hInv.2.2.1 it hit
            constructor
            · omega
            · omega
          · rw [if_neg hI]
            exact ⟨(hInv.2.2.1 it hit).2.1, (hInv.2.2.1 it hit).2.2⟩
        · intro tx htx _
          rw [List.mem_singleton] at htx
          subst htx
          exact ⟨hq, List.mem_map_of_mem (fun it => it.id) hmemL⟩
    · dsimp only at h
      rcases hh : (L.items.filter (fun it =>
          decide (it.sku_id = sku) && decide (it.warehouse_id = wid))).head? with
        _ | item
      · rw [hh] at h
        exact Except.noConfusion h
      · rw [hh] at h
        dsimp only at h
        injection h with h'
        subst h'
        have hsingle := filter_pair_singleton L sku wid item hInv.2.1 hh
        have hmemL : item ∈ L.items := by
          have : item ∈ L.items.filter (fun it =>
              decide (it.sku_id = sku) && decide (it.warehouse_id = wid)) := by
            rw [hsingle]
            exact List.mem_singleton_self _
          exact List.mem_of_mem_filter this
        have hav : availableSum L sku (some wid) =
            item.quantity - item.reserved_quantity :=
          availableSum_single L sku wid item hsingle
        rw [hav] at havail
        refine inv_update L _ _ ?_ ?_ hInv ?_ ?_ ?_
        · intro it
          by_cases hI : it.id = item.id <;> simp [hI]
        · intro it
          by_cases hI : it.id = item.id <;> simp [hI]
        · intro it hit
          rw [outstanding_append_reserve L.txs _ it.id rfl rid rfl hsr]
          dsimp only
          by_cases hI : it.id = item.id
          · rw [if_pos hI, if_pos hI.symm, (hInv.2.2.1 it hit).1]
          · rw [if_neg hI, if_neg (fun hk => hI hk.symm), add_zero,
              (hInv.2.2.1 it hit).1]
        · intro it hit
          by_cases hI : it.id = item.id
          · rw [if_pos hI]
            dsimp only
            have hsame : it = item :=
              List.inj_on_of_nodup_map hInv.1 hit hmemL hI
            subst hsame
            have hb := hInv.2.2.1 it hit
            constructor
            · omega
            · omega
          · rw [if_neg hI]
            exact ⟨(hInv.2.2.1 it hit).2.1, (hInv.2.2.1 it hit).2.2⟩
        · intro tx htx _
          rw [List.mem_singleton] at htx
          subst htx
          exact ⟨hq, List.mem_map_of_mem (fun it => it.id) hmemL⟩

theorem indicator_mono (b c : Bool) (q : Int) (himp : b = true → c = true)
    (hq : c = true → 0 ≤ q) :
    (if b then q else 0) ≤ (if c then q else 0) := by
  cases b
  · simp only [Bool.false_eq_true, if_false]
    cases c
    · simp
    · simpa using hq rfl
  · rw [himp rfl]

/-- An unsettled reference's RESERVE sum on an item never exceeds the item's
total outstanding amount (all reserve quantities being positive). -/
theorem ridResSum_le_outstanding (txs : List InvTx) (rid : String) (i : Nat)
    (hsr : settledRid txs rid = false)
    (hpos : ∀ tx ∈ txs, tx.transaction_type = InvTxType.reserve →
      0 < tx.quantity) :
    ridResSum txs rid i ≤ outstanding txs i := by
  unfold ridResSum outstanding outstandingOver
  apply List.sum_le_sum
  intro tx htx
  unfold liveAmt liveRes
  apply indicator_mono
  · intro hb
    simp only [Bool.and_eq_true, decide_eq_true_eq] at hb
    obtain ⟨⟨hI, hR⟩, hRid⟩ := hb
    simp [hI, hR, hRid, hsr]
  · intro hc
    simp only [Bool.and_eq_true, decide_eq_true_eq] at hc
    exact le_of_lt (hpos tx htx hc.2.1)

theorem inv_release_ok (L L' : Ledger) (rid : String) (types : List String)
    (newType : String)
    (hInv : LedgerInv L)
    (hsr : settledRid L.txs rid = false)
    (hcov : ∀ tx ∈ L.txs, tx.reference_id = some rid →
      tx.transaction_type = InvTxType.reserve → refTypeIn tx types)
    (h : release_reserved_stock L rid types newType = .ok L') :
    LedgerInv L' := by
  by_cases hemp : L.txs.filter (matchesRelease rid types) = []
  · unfold release_reserved_stock at h
    rw [hemp] at h
    simp only [List.isEmpty_nil, if_true] at h
    injection h with h'
    subst h'
    exact hInv
  · have hall : ∀ tx ∈ L.txs.filter (matchesRelease rid types),
        ∃ it ∈ L.items, it.id = tx.inventory_item_id := by
      intro tx htx
      have hres : tx.transaction_type = InvTxType.reserve := by
        have hp := (List.mem_filter.mp htx).2
        simp only [matchesRelease, Bool.and_eq_true, decide_eq_true_eq] at hp
        exact hp.2
      have hmem := (hInv.2.2.2 tx (List.mem_of_mem_filter htx) hres).2
      obtain ⟨it, hit, hid⟩ := List.mem_map.mp hmem
      exact ⟨it, hit, hid⟩
    have heval := release_eval L rid types newType hemp hall
    rw [heval] at h
    injection h with h'
    subst h'
    have hpos : ∀ tx ∈ L.txs, tx.transaction_type = InvTxType.reserve →
        0 < tx.quantity := fun tx htx hr => (hInv.2.2.2 tx htx hr).1
    have hmatch : ∀ i, itemMatchSum
        (L.txs.filter (matchesRelease rid types)) i = ridResSum L.txs rid i :=
      fun i => release_matched_sum_eq L.txs rid types i hcov
    have hsettle : ∀ i, outstanding (L.txs ++
        (L.txs.filter (matchesRelease rid types)).map (fun tx =>
          (⟨tx.inventory_item_id, .release, tx.quantity, some rid,
            some newType⟩ : InvTx))) i =
        outstanding L.txs i - ridResSum L.txs rid i := by
      intro i
      apply outstanding_settle L.txs _ rid i hsr
      · intro tx htx
        obtain ⟨tx0, _, hval⟩ := List.mem_map.mp htx
        subst hval
        rfl
      · intro tx htx
        obtain ⟨tx0, _, hval⟩ := List.mem_map.mp htx
        subst hval
        exact Or.inl rfl
      · simp only [ne_eq, List.map_eq_nil_iff]
        exact hemp
    refine inv_update L _ _ ?_ ?_ hInv ?_ ?_ ?_
    · intro it
      rfl
    · intro it
      exact ⟨rfl, rfl⟩
    · intro it hit
      dsimp only
      rw [hsettle it.id, hmatch it.id, (hInv.2.2.1 it hit).1]
    · intro it hit
      dsimp only
      have hb := hInv.2.2.1 it hit
      have hle := ridResSum_le_outstanding L.txs rid it.id hsr hpos
      have hnn := ridResSum_nonneg L.txs rid it.id hpos
      rw [hmatch it.id]
      constructor
      · rw [hb.1]
        omega
      · omega
    · intro tx htx hres
      obtain ⟨tx0, _, hval⟩ := List.mem_map.mp htx
      subst hval
      exact absurd hres (by simp)

/-- Evaluation of a non-empty commit. -/
theorem commit_eval (L : Ledger) (sn : String)
    (hne : L.txs.filter (matchesCommit sn) ≠ []) :
    commit_reserved_stock L sn =
      { items := L.items.map (fun it =>
          { it with
              quantity := it.quantity -
                itemMatchSum (L.txs.filter (matchesCommit sn)) it.id,
              reserved_quantity := it.reserved_quantity -
                itemMatchSum (L.txs.filter (matchesCommit sn)) it.id }),
        txs := L.txs ++ (L.txs.filter (matchesCommit sn)).map (fun tx =>
          (⟨tx.inventory_item_id, .stock_out, tx.quantity, some sn,
            some "payment_confirmation"⟩ : InvTx)) } := by
  have hempty : (L.txs.filter (matchesCommit sn)).isEmpty = false := by
    rw [List.isEmpty_eq_false]
    exact hne
  simp only [commit_reserved_stock, hempty, Bool.false_eq_true, if_false]
  rw [foldl_dec_both]

theorem inv_commit (L : Ledger) (sn : String)
    (hInv : LedgerInv L)
    (hsr : settledRid L.txs sn = false)
    (hcov : ∀ tx ∈ L.txs, tx.reference_id = some sn →
      tx.transaction_type = InvTxType.reserve →
      tx.reference_type = some "order_creation") :
    LedgerInv (commit_reserved_stock L sn) := by
  by_cases hemp : L.txs.filter (matchesCommit sn) = []
  · unfold commit_reserved_stock
    rw [hemp]
    simp only [List.isEmpty_nil, if_true]
    exact hInv
  · rw [commit_eval L sn hemp]
    have hpos : ∀ tx ∈ L.txs, tx.transaction_type = InvTxType.reserve →
        0 < tx.quantity := fun tx htx hr => (hInv.2.2.2 tx htx hr).1
    have hmatch : ∀ i, itemMatchSum
        (L.txs.filter (matchesCommit sn)) i = ridResSum L.txs sn i := by
      intro i
      have hpe : L.txs.filter (matchesCommit sn) = L.txs.filter (fun tx =>
          decide (tx.reference_id = some sn) &&
          decide (tx.reference_type = some "order_creation") &&
          decide (tx.transaction_type = InvTxType.reserve)) := rfl
      rw [hpe]
      exact commitlike_matched_sum_eq L.txs sn "order_creation" i hcov
    have hsettle : ∀ i, outstanding (L.txs ++
        (L.txs.filter (matchesCommit sn)).map (fun tx =>
          (⟨tx.inventory_item_id, .stock_out, tx.quantity, some sn,
            some "payment_confirmation"⟩ : InvTx))) i =
        outstanding L.txs i - ridResSum L.txs sn i := by
      intro i
      apply outstanding_settle L.txs _ sn i hsr
      · intro tx htx
        obtain ⟨tx0, _, hval⟩ := List.mem_map.mp htx
        subst hval
        rfl
      · intro tx htx
        obtain ⟨tx0, _, hval⟩ := List.mem_map.mp htx
        subst hval
        exact Or.inr rfl
      · simp only [ne_eq, List.map_eq_nil_iff]
        exact hemp
    refine inv_update L _ _ ?_ ?_ hInv ?_ ?_ ?_
    · intro it
      rfl
    · intro it
      exact ⟨rfl, rfl⟩
    · intro it hit
      dsimp only
      rw [hsettle it.id, hmatch it.id, (hInv.2.2.1 it hit).1]
    · intro it hit
      dsimp only
      have hb := hInv.2.2.1 it hit
      have hle := ridResSum_le_outstanding L.txs sn it.id hsr hpos
      have hnn := ridResSum_nonneg L.txs sn it.id hpos
      rw [hmatch it.id]
      constructor
      · rw [hb.1]
        omega
      · omega
    · intro tx htx hres
      obtain ⟨tx0, _, hval⟩ := List.mem_map.mp htx
      subst hval
      exact absurd hres (by simp)

/-- The RESERVE transactions `confirm_stock_out` matches: same reference
id, reference type exactly "reserve". -/
def matchesConfirm (rid : String) (tx : InvTx) : Bool :=
  decide (tx.reference_id = some rid) &&
  decide (tx.reference_type = some "reserve") &&
  decide (tx.transaction_type = InvTxType.reserve)

theorem confirm_filter_eq (L : Ledger) (rid : String) :
    L.txs.filter (fun tx =>
      decide (tx.reference_id = some rid) &&
      decide (tx.reference_type = some "reserve") &&
      decide (tx.transaction_type = InvTxType.reserve)) =
    L.txs.filter (matchesConfirm rid) := rfl

/-- Evaluation of a non-empty confirm. -/
theorem confirm_eval (L : Ledger) (rid rtype : String)
    (hne : L.txs.filter (matchesConfirm rid) ≠ []) :
    confirm_stock_out L rid rtype =
      ({ items := L.items.map (fun it =>
          { it with
              quantity := it.quantity -
                itemMatchSum (L.txs.filter (matchesConfirm rid)) it.id,
              reserved_quantity := it.reserved_quantity -
                itemMatchSum (L.txs.filter (matchesConfirm rid)) it.id }),
         txs := L.txs ++ (L.txs.filter (matchesConfirm rid)).map (fun tx =>
           (⟨tx.inventory_item_id, .stock_out, tx.quantity, some rid,
             some rtype⟩ : InvTx)) }, true) := by
  have hempty : (L.txs.filter (matchesConfirm rid)).isEmpty = false := by
    rw [List.isEmpty_eq_false]
    exact hne
  simp only [confirm_stock_out]
  rw [confirm_filter_eq, hempty]
  simp only [Bool.false_eq_true, if_false]
  rw [foldl_dec_both]

theorem inv_confirm (L : Ledger) (rid rtype : String)
    (hInv : LedgerInv L)
    (hsr : settledRid L.txs rid = false)
    (hcov : ∀ tx ∈ L.txs, tx.reference_id = some rid →
      tx.transaction_type = InvTxType.reserve →
      tx.reference_type = some "reserve") :
    LedgerInv (confirm_stock_out L rid rtype).1 := by
  by_cases hemp : L.txs.filter (matchesConfirm rid) = []
  · simp only [confirm_stock_out]
    rw [confirm_filter_eq, hemp]
    simp only [List.isEmpty_nil, if_true]
    exact hInv
  · rw [confirm_eval L rid rtype hemp]
    have hpos : ∀ tx ∈ L.txs, tx.transaction_type = InvTxType.reserve →
        0 < tx.quantity := fun tx htx hr => (hInv.2.2.2 tx htx hr).1
    have hmatch : ∀ i, itemMatchSum (L.txs.filter (matchesConfirm rid)) i =
        ridResSum L.txs rid i := by
      intro i
      rw [← confirm_filter_eq]
      exact commitlike_matched_sum_eq L.txs rid "reserve" i hcov
    have hsettle : ∀ i, outstanding (L.txs ++
        (L.txs.filter (matchesConfirm rid)).map (fun tx =>
          (⟨tx.inventory_item_id, .stock_out, tx.quantity, some rid,
            some rtype⟩ : InvTx))) i =
        outstanding L.txs i - ridResSum L.txs rid i := by
      intro i
      apply outstanding_settle L.txs _ rid i hsr
      · intro tx htx
        obtain ⟨tx0, _, hval⟩ := List.mem_map.mp htx
        subst hval
        rfl
      · intro tx htx
        obtain ⟨tx0, _, hval⟩ := List.mem_map.mp htx
        subst hval
        exact Or.inr rfl
      · simp only [ne_eq, List.map_eq_nil_iff]
        exact hemp
    refine inv_update L _ _ ?_ ?_ hInv ?_ ?_ ?_
    · intro it
      rfl
    · intro it
      exact ⟨rfl, rfl⟩
    · intro it hit
      dsimp only
      rw [hsettle it.id, hmatch it.id, (hInv.2.2.1 it hit).1]
    · intro it hit
      dsimp only
      have hb := hInv.2.2.1 it hit
      have hle := ridResSum_le_outstanding L.txs rid it.id hsr hpos
      have hnn := ridResSum_nonneg L.txs rid it.id hpos
      rw [hmatch it.id]
      constructor
      · rw [hb.1]
        omega
      · omega
    · intro tx htx hres
      obtain ⟨tx0, _, hval⟩ := List.mem_map.mp htx
      subst hval
      exact absurd hres (by simp)

theorem inv_transfer_ok (L L' : Ledger) (sku fromW toW : Nat) (qty : Int)
    (hInv : LedgerInv L) (hq : 0 < qty)
    (h : transfer_stock L sku fromW toW qty = .ok L') :
    LedgerInv L' := by
  unfold transfer_stock at h
  by_cases hchk : check_stock_availability L sku qty (some fromW) = false
  · rw [if_pos hchk] at h
    exact Except.noConfusion h
  rw [if_neg hchk] at h
  have havail0 : qty ≤ availableSum L sku (some fromW) := by
    have hchk' : check_stock_availability L sku qty (some fromW) = true :=
      eq_true_of_ne_false hchk
    unfold check_stock_availability at hchk'
    exact of_decide_eq_true hchk'
  rcases hh : (L.items.filter (fun it =>
      decide (it.sku_id = sku) && decide (it.warehouse_id = fromW))).head? with
    _ | fromItem
  · rw [hh] at h
    exact Except.noConfusion h
  rw [hh] at h
  dsimp only at h
  have hsingleF := filter_pair_singleton L sku fromW fromItem hInv.2.1 hh
  have hmemF : fromItem ∈ L.items := List.mem_of_mem_filter (by
    rw [hsingleF]
    exact List.mem_singleton_self _)
  have havail : qty ≤ fromItem.quantity - fromItem.reserved_quantity := by
    rw [availableSum_single L sku fromW fromItem hsingleF] at havail0
    exact havail0
  rcases hg : (L.items.filter (fun it =>
      decide (it.sku_id = sku) && decide (it.warehouse_id = toW))).head? with
    _ | toItem
  · rw [getOrCreate_new L sku toW hg] at h
    dsimp only at h
    injection h with h'
    subst h'
    rw [List.map_map]
    have hfresh : ∀ it ∈ L.items,
        ¬(it.sku_id = sku ∧ it.warehouse_id = toW) := by
      have hnil : L.items.filter (fun it =>
          decide (it.sku_id = sku) && decide (it.warehouse_id = toW)) = [] :=
        List.head?_eq_none_iff.mp hg
      intro it hit hcon
      have hmem : it ∈ L.items.filter (fun it =>
          decide (it.sku_id = sku) && decide (it.warehouse_id = toW)) :=
        List.mem_filter.mpr ⟨hit, by simp [hcon.1, hcon.2]⟩
      rw [hnil] at hmem
      simp at hmem
    have hInv2 := inv_append_item L sku toW hInv hfresh
    refine inv_update_qtyOnly _ _ _ ?_ ?_ ?_ ?_ hInv2 ?_
    · intro it
      simp only [Function.comp_apply]
      by_cases hF : it.id = fromItem.id
      · rw [if_pos hF]
        dsimp only
        by_cases hT : it.id = nextId L
        · rw [if_pos hT]
        · rw [if_neg hT]
      · rw [if_neg hF]
        by_cases hT : it.id = nextId L
        · rw [if_pos hT]
        · rw [if_neg hT]
    · intro it
      simp only [Function.comp_apply]
      by_cases hF : it.id = fromItem.id
      · rw [if_pos hF]
        dsimp only
        by_cases hT : it.id = nextId L
        · rw [if_pos hT]
          exact ⟨rfl, rfl⟩
        · rw [if_neg hT]
          exact ⟨rfl, rfl⟩
      · rw [if_neg hF]
        by_cases hT : it.id = nextId L
        · rw [if_pos hT]
          exact ⟨rfl, rfl⟩
        · rw [if_neg hT]
          exact ⟨rfl, rfl⟩
    · intro it
      simp only [Function.comp_apply]
      by_cases hF : it.id = fromItem.id
      · rw [if_pos hF]
        dsimp only
        by_cases hT : it.id = nextId L
        · rw [if_pos hT]
        · rw [if_neg hT]
      · rw [if_neg hF]
        by_cases hT : it.id = nextId L
        · rw [if_pos hT]
        · rw [if_neg hT]
    · intro it hit
      simp only [Function.comp_apply]
      have hb := hInv2.2.2.1 it hit
      by_cases hF : it.id = fromItem.id
      · have hsame : it = fromItem :=
          List.inj_on_of_nodup_map hInv2.1 hit
            (List.mem_append_left _ hmemF) hF
        rw [if_pos hF]
        dsimp only
        by_cases hT : it.id = nextId L
        · rw [if_pos hT]
          dsimp only
          omega
        · rw [if_neg hT]
          dsimp only
          rw [hsame]
          rw [hsame] at hb
          omega
      · rw [if_neg hF]
        by_cases hT : it.id = nextId L
        · rw [if_pos hT]
          dsimp only
          omega
        · rw [if_neg hT]
          omega
    · intro tx htx
      rcases List.mem_cons.mp htx with h1 | h2
      · subst h1
        refine ⟨?_, ?_, ?_⟩ <;> simp
      · rw [List.mem_singleton] at h2
        subst h2
        refine ⟨?_, ?_, ?_⟩ <;> simp
  · rw [getOrCreate_found L sku toW toItem hg] at h
    dsimp only at h
    injection h with h'
    subst h'
    rw [List.map_map]
    refine inv_update_qtyOnly _ _ _ ?_ ?_ ?_ ?_ hInv ?_
    · intro it
      simp only [Function.comp_apply]
      by_cases hF : it.id = fromItem.id
      · rw [if_pos hF]
        dsimp only
        by_cases hT : it.id = toItem.id
        · rw [if_pos hT]
        · rw [if_neg hT]
      · rw [if_neg hF]
        by_cases hT : it.id = toItem.id
        · rw [if_pos hT]
        · rw [if_neg hT]
    · intro it
      simp only [Function.comp_apply]
      by_cases hF : it.id = fromItem.id
      · rw [if_pos hF]
        dsimp only
        by_cases hT : it.id = toItem.id
        · rw [if_pos hT]
          exact ⟨rfl, rfl⟩
        · rw [if_neg hT]
          exact ⟨rfl, rfl⟩
      · rw [if_neg hF]
        by_cases hT : it.id = toItem.id
        · rw [if_pos hT]
          exact ⟨rfl, rfl⟩
        · rw [if_neg hT]
          exact ⟨rfl, rfl⟩
    · intro it
      simp only [Function.comp_apply]
      by_cases hF : it.id = fromItem.id
      · rw [if_pos hF]
        dsimp only
        by_cases hT : it.id = toItem.id
        · rw [if_pos hT]
        · rw [if_neg hT]
      · rw [if_neg hF]
        by_cases hT : it.id = toItem.id
        · rw [if_pos hT]
        · rw [if_neg hT]
    · intro it hit
      simp only [Function.comp_apply]
      have hb := hInv.2.2.1 it hit
      by_cases hF : it.id = fromItem.id
      · have hsame : it = fromItem :=
          List.inj_on_of_nodup_map hInv.1 hit hmemF hF
        rw [if_pos hF]
        dsimp only
        by_cases hT : it.id = toItem.id
        · rw [if_pos hT]
          dsimp only
          omega
        · rw [if_neg hT]
          dsimp only
          rw [hsame]
          rw [hsame] at hb
          omega
      · rw [if_neg hF]
        by_cases hT : it.id = toItem.id
        · rw [if_pos hT]
          dsimp only
          omega
        · rw [if_neg hT]
          omega
    · intro tx htx
      rcases List.mem_cons.mp htx with h1 | h2
      · subst h1
        refine ⟨?_, ?_, ?_⟩ <;> simp
      · rw [List.mem_singleton] at h2
        subst h2
        refine ⟨?_, ?_, ?_⟩ <;> simp

/-- One well-conditioned operation preserves the ledger invariant. -/
theorem inv_step (L : Ledger) (op : LedgerOp) (hInv : LedgerInv L)
    (hok : opOk L op) : LedgerInv (op.apply L) := by
  cases op with
  | opStockIn sku wid qty rid rtype =>
    exact inv_step_stockIn L sku wid qty rid rtype hInv hok
  | opReserve sku qty rid rtype w =>
    dsimp only [LedgerOp.apply]
    rcases hres : reserve_stock L sku qty rid rtype w with e | L'
    · exact hInv
    · exact inv_reserve_ok L L' sku qty rid rtype w hInv hok.1 hok.2 hres
  | opRelease rid types newType =>
    dsimp only [LedgerOp.apply]
    rcases hres : release_reserved_stock L rid types newType with e | L'
    · exact hInv
    · exact inv_release_ok L L' rid types newType hInv hok.1 hok.2 hres
  | opCommit sn =>
    exact inv_commit L sn hInv hok.1 hok.2
  | opConfirm rid rtype =>
    exact inv_confirm L rid rtype hInv hok.1 hok.2
  | opAdjust sku wid newQ =>
    exact inv_step_adjust L sku wid newQ hInv hok.1 hok.2
  | opTransfer sku fromW toW qty =>
    dsimp only [LedgerOp.apply]
    rcases hres : transfer_stock L sku fromW toW qty with e | L'
    · exact hInv
    · exact inv_transfer_ok L L' sku fromW toW qty hInv hok hres

/-- A well-conditioned run preserves the full invariant. -/
theorem inv_run (L : Ledger) (ops : List LedgerOp) (hInv : LedgerInv L)
    (hok : okRun L ops) : LedgerInv (applyOps L ops) := by
  induction ops generalizing L with
  | nil => exact hInv
  | cons op rest ih =>
    exact ih (op.apply L) (inv_step L op hInv hok.1) hok.2

/-- C2 counterexample input: the legal API call sequence stock-in 5, reserve
3, adjust-to-0 on one (SKU, warehouse) row, starting from the empty
ledger. -/
def c2BadOps : List LedgerOp :=
  [.opStockIn 1 1 5 none none,
   .opReserve 1 3 "A" "order_creation" none,
   .opAdjust 1 1 0]

/-- C2 counterexample: `adjust_stock` sets `quantity` to the literal new
value without regard to `reserved_quantity`, so stock-in 5 / reserve 3 /
adjust-to-0 (every input schema-valid: quantities positive, new quantity
≥ 0) ends with `reserved_quantity = 3 > 0 = quantity`, breaking
`reserved ≤ quantity`. -/
theorem ledger_invariant_counterexample :
    (applyOps ⟨[], []⟩ c2BadOps).items = [⟨1, 1, 1, 0, 3, 10⟩] ∧
    ¬(∀ it ∈ (applyOps ⟨[], []⟩ c2BadOps).items,
        0 ≤ it.reserved_quantity ∧ it.reserved_quantity ≤ it.quantity) := by
  refine ⟨by decide, by decide⟩

/-- C2: for every ledger satisfying the row/transaction invariant and every
finite sequence of ledger operations whose side conditions hold where they
execute (positive quantities, each reference settled at most once with its
full set of original reference types covered, commits / confirms applied to
references whose reservations carry the matched reference type, and
adjustments never setting a quantity below the row's reserved amount),
every InventoryItem row of the resulting ledger satisfies
`0 ≤ reserved_quantity ≤ quantity`.  Without the adjustment / settle-once
side conditions the property fails (see the counterexample). -/
theorem ledger_reserved_invariant (L : Ledger) (ops : List LedgerOp)
    (hInv : LedgerInv L) (hok : okRun L ops) :
    ∀ it ∈ (applyOps L ops).items,
      0 ≤ it.reserved_quantity ∧ it.reserved_quantity ≤ it.quantity := by
  have h := inv_run L ops hInv hok
  intro it hit
  exact ⟨(h.2.2.1 it hit).2.1, (h.2.2.1 it hit).2.2⟩

/-- A concrete well-conditioned run exercising every operation. -/
def c2Ops : List LedgerOp :=
  [.opStockIn 1 1 10 none none,
   .opReserve 1 3 "A" "order_creation" none,
   .opCommit "A",
   .opStockIn 1 2 5 none none,
   .opReserve 1 2 "B" "seckill_order_creation" none,
   .opRelease "B" ["seckill_order_creation"] "order_cancellation",
   .opAdjust 1 1 4,
   .opTransfer 1 1 2 3,
   .opReserve 1 1 "C" "reserve" (some 2),
   .opConfirm "C" "confirmed"]

theorem ledger_reserved_invariant_witness :
    LedgerInv ⟨[], []⟩ ∧ okRun ⟨[], []⟩ c2Ops ∧
    ∀ it ∈ (applyOps ⟨[], []⟩ c2Ops).items,
      0 ≤ it.reserved_quantity ∧ it.reserved_quantity ≤ it.quantity :=
  ⟨by decide, by decide,
   ledger_reserved_invariant ⟨[], []⟩ c2Ops (by decide) (by decide)⟩
